import Mathlib

/-!
Verification of the chess rules engine (models + engine modules).

A shallow embedding of the engine: `models/square.py`, `models/piece.py`,
`models/board.py`, `models/castling_rights.py`, `models/move.py`,
`models/game_state.py`, `engine/check_detector.py`, `engine/move_generator.py`,
`engine/move_validator.py`, `engine/chess_engine.py`.

Conventions:
* A `Square` stores `file` and `rank` as `Fin 8`; the Python constructor's
  bounds check is intrinsic to the type.  Places where the Python code
  computes coordinates that might fall outside the board go through
  `mkSquareI : Int → Int → Option Square`, whose `none` result corresponds to
  the `ValueError` raised by the `Square` constructor.
* The board grid `grid[rank][file]` is embedded as a function
  `Square → Option Piece`.
* Python's builtin `hash` on enum tuples is an unspecified injection fixed for
  the process run; it is modeled by the explicit injections `pieceTupleHash`
  and `colorHash` below.  Nothing in the development depends on the concrete
  values beyond injectivity-in-practice on the positions evaluated.
-/

/-- `Color` enum from `models/piece.py`. -/
inductive Color where
  | white
  | black
deriving DecidableEq, Repr

/-- `Color.opposite`. -/
def Color.opposite : Color → Color
  | .white => .black
  | .black => .white

/-- `PieceType` enum from `models/piece.py`. -/
inductive PieceType where
  | pawn
  | knight
  | bishop
  | rook
  | queen
  | king
deriving DecidableEq, Repr

/-- `Piece` from `models/piece.py`: a (type, color) pair with structural equality. -/
structure Piece where
  pieceType : PieceType
  color : Color
deriving DecidableEq, Repr

/-- `Square` from `models/square.py`: file 0-7, rank 0-7, bounds enforced by `Fin 8`. -/
structure Square where
  file : Fin 8
  rank : Fin 8
deriving DecidableEq, Repr

/-- The 8x8 grid of `models/board.py` (`grid[rank][file]`), as a function on squares. -/
def Board := Square → Option Piece

/-- `Board.get_piece`. -/
def Board.getPiece (b : Board) (sq : Square) : Option Piece := b sq

/-- `Board.set_piece`. -/
def Board.setPiece (b : Board) (sq : Square) (p : Piece) : Board :=
  fun x => if x = sq then some p else b x

/-- `Board.set_piece` where the stored value is itself optional (the Python
code passes a possibly-`None` rook value straight through `set_piece`). -/
def Board.setOpt (b : Board) (sq : Square) (v : Option Piece) : Board :=
  fun x => if x = sq then v else b x

/-- `Board.remove_piece`. -/
def Board.removePiece (b : Board) (sq : Square) : Board :=
  fun x => if x = sq then none else b x

/-- `CastlingRights` from `models/castling_rights.py`. -/
structure CastlingRights where
  white_kingside : Bool
  white_queenside : Bool
  black_kingside : Bool
  black_queenside : Bool
deriving DecidableEq, Repr

/-- `Move` from `models/move.py`; equality is structural over all seven fields. -/
structure Move where
  from_square : Square
  to_square : Square
  piece : Piece
  captured_piece : Option Piece := none
  promotion_piece : Option PieceType := none
  is_castling : Bool := false
  is_en_passant : Bool := false
deriving DecidableEq, Repr

/-- `GameMode` enum from `models/game_state.py`. -/
inductive GameMode where
  | single_player
  | multiplayer
deriving DecidableEq, Repr

/-- `GameState` from `models/game_state.py`. -/
structure GameState where
  board : Board
  current_player : Color
  castling_rights : CastlingRights
  en_passant_target : Option Square := none
  halfmove_clock : Nat := 0
  fullmove_number : Nat := 1
  move_history : List Move := []
  position_history : List Nat := []
  game_mode : GameMode := .multiplayer

/-- All 64 squares in the rank-major, file-minor order of the Python scans
(`for rank in range(8): for file in range(8)`). -/
def squaresRF : List Square :=
  (List.finRange 8).flatMap (fun r => (List.finRange 8).map (fun f => ⟨f, r⟩))

theorem mem_squaresRF (sq : Square) : sq ∈ squaresRF := by
  rcases sq with ⟨f, r⟩
  simp [squaresRF, List.mem_flatMap, List.mem_map, List.mem_finRange]

/-- Construct a square from `Int` coordinates; `none` models the `ValueError`
raised by the `Square` constructor when a coordinate is outside 0-7. -/
def mkSquareI (f r : Int) : Option Square :=
  if h : 0 ≤ f ∧ f < 8 ∧ 0 ≤ r ∧ r < 8 then
    some ⟨⟨f.toNat, by omega⟩, ⟨r.toNat, by omega⟩⟩
  else
    none

theorem mkSquareI_some {f r : Int} {sq : Square} (h : mkSquareI f r = some sq) :
    (sq.file.val : Int) = f ∧ (sq.rank.val : Int) = r := by
  unfold mkSquareI at h
  split at h
  · next hb =>
    cases h
    constructor <;> simp <;> omega
  · exact absurd h (by simp)

/-- `Square.to_algebraic` from `models/square.py`. -/
def Square.toAlgebraic (sq : Square) : String :=
  ⟨[Char.ofNat (97 + sq.file.val), Char.ofNat (49 + sq.rank.val)]⟩

/-- The file-character test and index of `Square.from_algebraic`
(`file_char in 'abcdefgh'`, `ord(file_char) - ord('a')`). -/
def fileIndexOfChar (c : Char) : Option (Fin 8) :=
  if h : 97 ≤ c.toNat ∧ c.toNat ≤ 104 then some ⟨c.toNat - 97, by omega⟩ else none

/-- The rank-character test and index of `Square.from_algebraic`
(`rank_char in '12345678'`, `int(rank_char) - 1`). -/
def rankIndexOfChar (c : Char) : Option (Fin 8) :=
  if h : 49 ≤ c.toNat ∧ c.toNat ≤ 56 then some ⟨c.toNat - 49, by omega⟩ else none

/-- `Square.from_algebraic` from `models/square.py`: length check, lower-case
the file character, then file and rank checks; `none` models the raised
`ValueError`. -/
def fromAlgebraic (s : String) : Option Square :=
  match s.data with
  | [fc, rc] =>
    match fileIndexOfChar fc.toLower with
    | none => none
    | some f =>
      match rankIndexOfChar rc with
      | none => none
      | some r => some ⟨f, r⟩
  | _ => none

/-- `Board.setup_standard_position` from `models/board.py`. -/
def standardBoard : Board := fun sq =>
  let backRank : Fin 8 → PieceType := fun f =>
    match f with
    | 0 => .rook
    | 1 => .knight
    | 2 => .bishop
    | 3 => .queen
    | 4 => .king
    | 5 => .bishop
    | 6 => .knight
    | 7 => .rook
  match sq.rank with
  | 0 => some ⟨backRank sq.file, .white⟩
  | 1 => some ⟨.pawn, .white⟩
  | 6 => some ⟨.pawn, .black⟩
  | 7 => some ⟨backRank sq.file, .black⟩
  | _ => none

/-! ## Check detector (`engine/check_detector.py`) -/

/-- Board read at `Int` coordinates; off-board reads return `none`.  The
Python code only reads path squares that its callers keep on the board. -/
def boardGetI (b : Board) (f r : Int) : Option Piece :=
  match mkSquareI f r with
  | some sq => b sq
  | none => none

/-- The step `0 if diff == 0 else (1 if diff > 0 else -1)` of `_is_path_clear`. -/
def stepOf (d : Int) : Int :=
  if d = 0 then 0 else if 0 < d then 1 else -1

/-- The squares visited by the `while current != to` loop of `_is_path_clear`,
starting at `(cf, cr)` and stepping by `(df, dr)`.  The loop is bounded by 8
iterations, enough for any aligned pair of on-board squares (its only callers). -/
def pathSquares (cf cr tf tr df dr : Int) : Nat → List (Int × Int)
  | 0 => []
  | n + 1 =>
    if cf = tf ∧ cr = tr then []
    else (cf, cr) :: pathSquares (cf + df) (cr + dr) tf tr df dr n

theorem pathSquares_ne_target {cf cr tf tr df dr : Int} {n : Nat} {e : Int × Int}
    (h : e ∈ pathSquares cf cr tf tr df dr n) : e ≠ (tf, tr) := by
  induction n generalizing cf cr with
  | zero => simp [pathSquares] at h
  | succ n ih =>
    unfold pathSquares at h
    split at h
    · simp at h
    · next hne =>
      rcases List.mem_cons.mp h with h | h
      · subst h
        intro hcontra
        exact hne (by cases hcontra; exact ⟨rfl, rfl⟩)
      · exact ih h

/-- `_is_path_clear`: every square strictly between the two endpoints is empty. -/
def isPathClear (b : Board) (fromSq toSq : Square) : Bool :=
  let df := stepOf ((toSq.file.val : Int) - fromSq.file.val)
  let dr := stepOf ((toSq.rank.val : Int) - fromSq.rank.val)
  (pathSquares ((fromSq.file.val : Int) + df) ((fromSq.rank.val : Int) + dr)
      (toSq.file.val : Int) (toSq.rank.val : Int) df dr 8).all
    (fun e => boardGetI b e.1 e.2 = none)

/-- `_can_pawn_attack`. -/
def canPawnAttack (fromSq : Square) (p : Piece) (target : Square) : Bool :=
  let direction : Int := if p.color = .white then 1 else -1
  let rankDiff : Int := (target.rank.val : Int) - fromSq.rank.val
  let fileDiff : Int := ((target.file.val : Int) - fromSq.file.val).natAbs
  rankDiff = direction ∧ fileDiff = 1

/-- `_can_knight_attack`. -/
def canKnightAttack (fromSq target : Square) : Bool :=
  let fileDiff := ((target.file.val : Int) - fromSq.file.val).natAbs
  let rankDiff := ((target.rank.val : Int) - fromSq.rank.val).natAbs
  (fileDiff = 2 ∧ rankDiff = 1) ∨ (fileDiff = 1 ∧ rankDiff = 2)

/-- `_can_bishop_attack`. -/
def canBishopAttack (b : Board) (fromSq target : Square) : Bool :=
  let fileDiff : Int := (target.file.val : Int) - fromSq.file.val
  let rankDiff : Int := (target.rank.val : Int) - fromSq.rank.val
  if fileDiff.natAbs ≠ rankDiff.natAbs ∨ fileDiff = 0 then false
  else isPathClear b fromSq target

/-- `_can_rook_attack`. -/
def canRookAttack (b : Board) (fromSq target : Square) : Bool :=
  let fileDiff : Int := (target.file.val : Int) - fromSq.file.val
  let rankDiff : Int := (target.rank.val : Int) - fromSq.rank.val
  if ¬((fileDiff = 0 ∧ rankDiff ≠ 0) ∨ (fileDiff ≠ 0 ∧ rankDiff = 0)) then false
  else isPathClear b fromSq target

/-- `_can_queen_attack`. -/
def canQueenAttack (b : Board) (fromSq target : Square) : Bool :=
  canBishopAttack b fromSq target || canRookAttack b fromSq target

/-- `_can_king_attack`. -/
def canKingAttack (fromSq target : Square) : Bool :=
  let fileDiff := ((target.file.val : Int) - fromSq.file.val).natAbs
  let rankDiff := ((target.rank.val : Int) - fromSq.rank.val).natAbs
  fileDiff ≤ 1 ∧ rankDiff ≤ 1 ∧ (fileDiff ≠ 0 ∨ rankDiff ≠ 0)

/-- `_can_piece_attack_square`: dispatch on piece type. -/
def canPieceAttack (b : Board) (fromSq : Square) (p : Piece) (target : Square) : Bool :=
  match p.pieceType with
  | .pawn => canPawnAttack fromSq p target
  | .knight => canKnightAttack fromSq target
  | .bishop => canBishopAttack b fromSq target
  | .rook => canRookAttack b fromSq target
  | .queen => canQueenAttack b fromSq target
  | .king => canKingAttack fromSq target

/-- `is_square_attacked` on a bare board: some piece of `byColor` attacks `target`. -/
def isSquareAttackedB (b : Board) (target : Square) (byColor : Color) : Bool :=
  squaresRF.any fun sq =>
    match b sq with
    | some p => p.color = byColor && canPieceAttack b sq p target
    | none => false

/-- `CheckDetector.is_square_attacked`. -/
def isSquareAttacked (s : GameState) (target : Square) (byColor : Color) : Bool :=
  isSquareAttackedB s.board target byColor

/-- `find_king_position` on a bare board: first square (rank-major scan)
holding the king of `color`. -/
def findKingB (b : Board) (color : Color) : Option Square :=
  squaresRF.find? fun sq =>
    match b sq with
    | some p => p.pieceType = .king && p.color = color
    | none => false

/-- `CheckDetector.find_king_position`. -/
def findKingPosition (s : GameState) (color : Color) : Option Square :=
  findKingB s.board color

/-- `is_check` on a bare board: king square attacked by the opposite color;
false when the king cannot be found. -/
def isCheckB (b : Board) (color : Color) : Bool :=
  match findKingB b color with
  | none => false
  | some k => isSquareAttackedB b k color.opposite

/-- `CheckDetector.is_check`. -/
def isCheck (s : GameState) (color : Color) : Bool :=
  isCheckB s.board color

/-! ## Move generator (`engine/move_generator.py`) -/

/-- Pawn direction: `1 if piece.color == Color.WHITE else -1`. -/
def dirOf (c : Color) : Int := if c = .white then 1 else -1

/-- Pawn start rank: `1 if piece.color == Color.WHITE else 6`. -/
def startRankOf (c : Color) : Nat := if c = .white then 1 else 6

/-- Promotion expansion order `[QUEEN, ROOK, BISHOP, KNIGHT]`. -/
def promoTypes : List PieceType := [.queen, .rook, .bishop, .knight]

/-- Forward part of `_generate_pawn_moves`: one square forward if empty (with
promotion expansion on the last rank), else also two squares from the start
rank when both squares are empty. -/
def pawnForwardMoves (s : GameState) (sq : Square) (p : Piece) : List Move :=
  match mkSquareI sq.file.val ((sq.rank.val : Int) + dirOf p.color) with
  | none => []
  | some fsq =>
    if s.board fsq = none then
      if fsq.rank.val = 7 ∨ fsq.rank.val = 0 then
        promoTypes.map fun pt =>
          { from_square := sq, to_square := fsq, piece := p, promotion_piece := some pt }
      else
        { from_square := sq, to_square := fsq, piece := p } ::
          (if sq.rank.val = startRankOf p.color then
            match mkSquareI sq.file.val ((sq.rank.val : Int) + 2 * dirOf p.color) with
            | some tsq =>
              if s.board tsq = none then
                [{ from_square := sq, to_square := tsq, piece := p }]
              else []
            | none => []   -- unreachable: from the start rank the target is on the board
          else [])
    else []

/-- One iteration of the diagonal-capture loop of `_generate_pawn_moves`:
regular capture (with promotion expansion) or en-passant capture when the
diagonal square is the state's en-passant target. -/
def pawnCapturesAt (s : GameState) (sq : Square) (p : Piece) (fo : Int) : List Move :=
  match mkSquareI ((sq.file.val : Int) + fo) ((sq.rank.val : Int) + dirOf p.color) with
  | none => []
  | some csq =>
    let epPart : List Move :=
      if s.en_passant_target = some csq then
        [{ from_square := sq, to_square := csq, piece := p,
           captured_piece := s.board ⟨csq.file, sq.rank⟩, is_en_passant := true }]
      else []
    match s.board csq with
    | some tp =>
      if tp.color ≠ p.color then
        if csq.rank.val = 7 ∨ csq.rank.val = 0 then
          promoTypes.map fun pt =>
            { from_square := sq, to_square := csq, piece := p,
              captured_piece := some tp, promotion_piece := some pt }
        else
          [{ from_square := sq, to_square := csq, piece := p, captured_piece := some tp }]
      else epPart
    | none => epPart

/-- `_generate_pawn_moves`: the forward part, then the capture loop over file
offsets `[-1, 1]`. -/
def generatePawnMoves (s : GameState) (sq : Square) (p : Piece) : List Move :=
  pawnForwardMoves s sq p ++ pawnCapturesAt s sq p (-1) ++ pawnCapturesAt s sq p 1

/-- Knight offsets. -/
def knightOffsets : List (Int × Int) :=
  [(2, 1), (2, -1), (-2, 1), (-2, -1), (1, 2), (1, -2), (-1, 2), (-1, -2)]

/-- Destination step shared by knight and normal king moves: move to an empty
square or capture an opponent piece (`captured_piece=target_piece`). -/
def offsetMove (s : GameState) (sq : Square) (p : Piece) (fo ro : Int) : List Move :=
  match mkSquareI ((sq.file.val : Int) + fo) ((sq.rank.val : Int) + ro) with
  | none => []
  | some t =>
    match s.board t with
    | none => [{ from_square := sq, to_square := t, piece := p }]
    | some tp =>
      if tp.color ≠ p.color then
        [{ from_square := sq, to_square := t, piece := p, captured_piece := some tp }]
      else []

/-- `_generate_knight_moves`. -/
def generateKnightMoves (s : GameState) (sq : Square) (p : Piece) : List Move :=
  knightOffsets.flatMap fun d => offsetMove s sq p d.1 d.2

/-- The `while True` slide of `_generate_sliding_moves`, bounded by 8 steps
(a slide leaves the board or is blocked within 7 squares). -/
def slideAux (s : GameState) (sq : Square) (p : Piece) (df dr : Int) :
    Int → Int → Nat → List Move
  | _, _, 0 => []
  | cf, cr, n + 1 =>
    match mkSquareI cf cr with
    | none => []
    | some t =>
      match s.board t with
      | none =>
        { from_square := sq, to_square := t, piece := p } ::
          slideAux s sq p df dr (cf + df) (cr + dr) n
      | some tp =>
        if tp.color ≠ p.color then
          [{ from_square := sq, to_square := t, piece := p, captured_piece := some tp }]
        else []

/-- `_generate_sliding_moves`. -/
def generateSlidingMoves (s : GameState) (sq : Square) (p : Piece) (df dr : Int) : List Move :=
  slideAux s sq p df dr ((sq.file.val : Int) + df) ((sq.rank.val : Int) + dr) 8

/-- `_generate_bishop_moves`. -/
def generateBishopMoves (s : GameState) (sq : Square) (p : Piece) : List Move :=
  [((1 : Int), (1 : Int)), (1, -1), (-1, 1), (-1, -1)].flatMap fun d =>
    generateSlidingMoves s sq p d.1 d.2

/-- `_generate_rook_moves`. -/
def generateRookMoves (s : GameState) (sq : Square) (p : Piece) : List Move :=
  [((1 : Int), (0 : Int)), (-1, 0), (0, 1), (0, -1)].flatMap fun d =>
    generateSlidingMoves s sq p d.1 d.2

/-- `_generate_queen_moves`. -/
def generateQueenMoves (s : GameState) (sq : Square) (p : Piece) : List Move :=
  [((1 : Int), (0 : Int)), (-1, 0), (0, 1), (0, -1), (1, 1), (1, -1), (-1, 1), (-1, -1)].flatMap
    fun d => generateSlidingMoves s sq p d.1 d.2

/-- `_generate_castling_moves`: rights held, king on its home square, the
squares between king and rook empty, the rook present and correctly typed. -/
def generateCastlingMoves (s : GameState) (sq : Square) (p : Piece) : List Move :=
  if p.color = .white then
    (if s.castling_rights.white_kingside ∧ sq = ⟨4, 0⟩ then
      if s.board ⟨5, 0⟩ = none ∧ s.board ⟨6, 0⟩ = none then
        match s.board ⟨7, 0⟩ with
        | some rk =>
          if rk.pieceType = .rook ∧ rk.color = .white then
            [{ from_square := sq, to_square := ⟨6, 0⟩, piece := p, is_castling := true }]
          else []
        | none => []
      else []
    else []) ++
    (if s.castling_rights.white_queenside ∧ sq = ⟨4, 0⟩ then
      if s.board ⟨1, 0⟩ = none ∧ s.board ⟨2, 0⟩ = none ∧ s.board ⟨3, 0⟩ = none then
        match s.board ⟨0, 0⟩ with
        | some rk =>
          if rk.pieceType = .rook ∧ rk.color = .white then
            [{ from_square := sq, to_square := ⟨2, 0⟩, piece := p, is_castling := true }]
          else []
        | none => []
      else []
    else [])
  else
    (if s.castling_rights.black_kingside ∧ sq = ⟨4, 7⟩ then
      if s.board ⟨5, 7⟩ = none ∧ s.board ⟨6, 7⟩ = none then
        match s.board ⟨7, 7⟩ with
        | some rk =>
          if rk.pieceType = .rook ∧ rk.color = .black then
            [{ from_square := sq, to_square := ⟨6, 7⟩, piece := p, is_castling := true }]
          else []
        | none => []
      else []
    else []) ++
    (if s.castling_rights.black_queenside ∧ sq = ⟨4, 7⟩ then
      if s.board ⟨1, 7⟩ = none ∧ s.board ⟨2, 7⟩ = none ∧ s.board ⟨3, 7⟩ = none then
        match s.board ⟨0, 7⟩ with
        | some rk =>
          if rk.pieceType = .rook ∧ rk.color = .black then
            [{ from_square := sq, to_square := ⟨2, 7⟩, piece := p, is_castling := true }]
          else []
        | none => []
      else []
    else [])

/-- King direction offsets. -/
def kingOffsets : List (Int × Int) :=
  [(1, 0), (-1, 0), (0, 1), (0, -1), (1, 1), (1, -1), (-1, 1), (-1, -1)]

/-- `_generate_king_moves`: one-square steps plus castling. -/
def generateKingMoves (s : GameState) (sq : Square) (p : Piece) : List Move :=
  (kingOffsets.flatMap fun d => offsetMove s sq p d.1 d.2) ++ generateCastlingMoves s sq p

/-- `generate_piece_moves`: dispatch on the piece at the square. -/
def generatePieceMoves (s : GameState) (sq : Square) : List Move :=
  match s.board sq with
  | none => []
  | some p =>
    match p.pieceType with
    | .pawn => generatePawnMoves s sq p
    | .knight => generateKnightMoves s sq p
    | .bishop => generateBishopMoves s sq p
    | .rook => generateRookMoves s sq p
    | .queen => generateQueenMoves s sq p
    | .king => generateKingMoves s sq p

/-- `generate_pseudo_legal_moves`: every square holding a piece of `color`,
in the rank-major scan order of `get_all_pieces`. -/
def generatePseudoLegalMoves (s : GameState) (color : Color) : List Move :=
  squaresRF.flatMap fun sq =>
    match s.board sq with
    | some p => if p.color = color then generatePieceMoves s sq else []
    | none => []

/-! ## Move validator (`engine/move_validator.py`) -/

/-- The rook relocation shared by `_apply_move_temporarily` and
`_execute_castling`: kingside (`to.file == 6`) moves the h-rook to the f-file,
otherwise the a-rook to the d-file, on the king's origin rank.  The rook value
is read before removal and may be `None`, exactly as in the Python code. -/
def castleRookShift (b : Board) (m : Move) : Board :=
  let rank := m.from_square.rank
  if m.to_square.file.val = 6 then
    (b.removePiece ⟨7, rank⟩).setOpt ⟨5, rank⟩ (b ⟨7, rank⟩)
  else
    (b.removePiece ⟨0, rank⟩).setOpt ⟨3, rank⟩ (b ⟨0, rank⟩)

/-- Board part of `_apply_move_temporarily`: clear origin, drop the en-passant
victim, relocate the castling rook, then place the (possibly promoted) piece. -/
def tempBoard (b : Board) (m : Move) : Board :=
  let b1 := b.removePiece m.from_square
  let b2 := if m.is_en_passant then b1.removePiece ⟨m.to_square.file, m.from_square.rank⟩ else b1
  let b3 := if m.is_castling then castleRookShift b2 m else b2
  match m.promotion_piece with
  | some pt => b3.setPiece m.to_square ⟨pt, m.piece.color⟩
  | none => b3.setPiece m.to_square m.piece

/-- `_apply_move_temporarily`: a state copy whose board has the move applied. -/
def applyMoveTemporarily (s : GameState) (m : Move) : GameState :=
  { s with board := tempBoard s.board m }

/-- `would_leave_in_check`. -/
def wouldLeaveInCheck (s : GameState) (m : Move) : Bool :=
  isCheck (applyMoveTemporarily s m) m.piece.color

/-- `validate_castling`: not currently in check, the square the king passes
through not attacked, and the simulated move not leaving the king in check. -/
def validateCastling (s : GameState) (m : Move) : Bool :=
  if isCheck s m.piece.color then false
  else
    match (if m.from_square.file.val < m.to_square.file.val then
            mkSquareI ((m.from_square.file.val : Int) + 1) m.from_square.rank.val
          else
            mkSquareI ((m.from_square.file.val : Int) - 1) m.from_square.rank.val) with
    | none => false   -- unreachable: generated castling moves start on the e-file
    | some isq =>
      if isSquareAttacked s isq m.piece.color.opposite then false
      else !wouldLeaveInCheck s m

/-- `validate_en_passant`. -/
def validateEnPassant (s : GameState) (m : Move) : Bool :=
  if s.en_passant_target = some m.to_square then !wouldLeaveInCheck s m else false

/-- `is_legal_move`. -/
def isLegalMove (s : GameState) (m : Move) : Bool :=
  if m.is_castling then validateCastling s m
  else if m.is_en_passant then validateEnPassant s m
  else !wouldLeaveInCheck s m

/-- `ChessEngine.get_legal_moves`: generate pseudo-legal moves, keep the legal ones. -/
def getLegalMoves (s : GameState) (color : Color) : List Move :=
  (generatePseudoLegalMoves s color).filter (isLegalMove s)

/-! ## Position hash (`models/game_state.py`) and executor (`engine/chess_engine.py`) -/

/-- Model of Python's `hash((piece.piece_type, piece.color))`: an explicit
injection standing in for the process-stable builtin hash. -/
def pieceTupleHash (p : Piece) : Nat :=
  (match p.pieceType with
   | .pawn => 100003
   | .knight => 100019
   | .bishop => 100043
   | .rook => 100057
   | .queen => 100069
   | .king => 100103) +
  (match p.color with
   | .white => 0
   | .black => 1000003)

/-- Model of Python's `hash(self.current_player)`. -/
def colorHash : Color → Nat
  | .white => 7907
  | .black => 9973

/-- `compute_position_hash` as a function of exactly the four fields it reads:
board contents, side to move, castling rights, en-passant target. -/
def positionHashOf (b : Board) (c : Color) (cr : CastlingRights) (ep : Option Square) : Nat :=
  let boardPart := squaresRF.foldl
    (fun h sq =>
      match b sq with
      | some p => h ^^^ ((sq.rank.val * 8 + sq.file.val) * 31 + pieceTupleHash p)
      | none => h)
    0
  let h1 := boardPart ^^^ (colorHash c * 17)
  let castlingNat :=
    (if cr.white_kingside then 1 else 0) |||
    (if cr.white_queenside then 2 else 0) |||
    (if cr.black_kingside then 4 else 0) |||
    (if cr.black_queenside then 8 else 0)
  let h2 := h1 ^^^ (castlingNat * 13)
  match ep with
  | some t => h2 ^^^ ((t.rank.val * 8 + t.file.val) * 19)
  | none => h2

/-- `GameState.compute_position_hash`. -/
def computePositionHash (s : GameState) : Nat :=
  positionHashOf s.board s.current_player s.castling_rights s.en_passant_target

/-- `CastlingRights.revoke_for_piece`. -/
def revokeForPiece (cr : CastlingRights) (pt : PieceType) (c : Color) (sq : Square) :
    CastlingRights :=
  match pt with
  | .king =>
    if c = .white then { cr with white_kingside := false, white_queenside := false }
    else { cr with black_kingside := false, black_queenside := false }
  | .rook =>
    if c = .white then
      if sq.file.val = 0 ∧ sq.rank.val = 0 then { cr with white_queenside := false }
      else if sq.file.val = 7 ∧ sq.rank.val = 0 then { cr with white_kingside := false }
      else cr
    else
      if sq.file.val = 0 ∧ sq.rank.val = 7 then { cr with black_queenside := false }
      else if sq.file.val = 7 ∧ sq.rank.val = 7 then { cr with black_kingside := false }
      else cr
  | _ => cr

/-- `CastlingRights.revoke_for_rook_capture`. -/
def revokeForRookCapture (cr : CastlingRights) (sq : Square) : CastlingRights :=
  if sq.file.val = 0 ∧ sq.rank.val = 0 then { cr with white_queenside := false }
  else if sq.file.val = 7 ∧ sq.rank.val = 0 then { cr with white_kingside := false }
  else if sq.file.val = 0 ∧ sq.rank.val = 7 then { cr with black_queenside := false }
  else if sq.file.val = 7 ∧ sq.rank.val = 7 then { cr with black_kingside := false }
  else cr

/-- Board part of `execute_move`: clear origin, then the castling /
en-passant / normal placement branches of `_execute_castling`,
`_execute_en_passant`, `_execute_normal_move`. -/
def execBoard (b : Board) (m : Move) : Board :=
  let b1 := b.removePiece m.from_square
  if m.is_castling then castleRookShift (b1.setPiece m.to_square m.piece) m
  else if m.is_en_passant then
    (b1.setPiece m.to_square m.piece).removePiece ⟨m.to_square.file, m.from_square.rank⟩
  else
    match m.promotion_piece with
    | some pt => b1.setPiece m.to_square ⟨pt, m.piece.color⟩
    | none => b1.setPiece m.to_square m.piece

/-- `_calculate_en_passant_target`.  The outer `Option` models the
`ValueError` the `Square` constructor would raise when the computed rank
falls off the board (a pawn "two-rank" move starting on its last rank). -/
def calcEnPassantTarget (m : Move) : Option (Option Square) :=
  if m.piece.pieceType ≠ .pawn then some none
  else if ((m.to_square.rank.val : Int) - m.from_square.rank.val).natAbs ≠ 2 then some none
  else if m.piece.color = .white then
    match mkSquareI m.from_square.file.val ((m.from_square.rank.val : Int) + 1) with
    | some t => some (some t)
    | none => none
  else
    match mkSquareI m.from_square.file.val ((m.from_square.rank.val : Int) - 1) with
    | some t => some (some t)
    | none => none

/-- `ChessEngine.execute_move`: new board, castling-rights revocation,
en-passant target, clocks, histories, side switch, and the appended hash of
the new position.  `none` models the raised `ValueError`. -/
def executeMove (s : GameState) (m : Move) : Option GameState :=
  let newBoard := execBoard s.board m
  let cr1 := revokeForPiece s.castling_rights m.piece.pieceType m.piece.color m.from_square
  let cr2 :=
    match m.captured_piece with
    | some cp => if cp.pieceType = .rook then revokeForRookCapture cr1 m.to_square else cr1
    | none => cr1
  match calcEnPassantTarget m with
  | none => none
  | some ep =>
    let s1 : GameState := {
      board := newBoard
      current_player := s.current_player.opposite
      castling_rights := cr2
      en_passant_target := ep
      halfmove_clock :=
        if m.piece.pieceType = .pawn ∨ m.captured_piece ≠ none then 0
        else s.halfmove_clock + 1
      fullmove_number :=
        if s.current_player = .black then s.fullmove_number + 1 else s.fullmove_number
      move_history := s.move_history ++ [m]
      position_history := s.position_history
      game_mode := s.game_mode }
    some { s1 with position_history := s.position_history ++ [computePositionHash s1] }

/-- `GameState.new_game` (multiplayer): standard setup, White to move, all
rights held, clocks 0/1, history seeded with the initial position's hash. -/
def initialGameState : GameState :=
  let s : GameState := {
    board := standardBoard
    current_player := .white
    castling_rights := ⟨true, true, true, true⟩
    en_passant_target := none
    halfmove_clock := 0
    fullmove_number := 1
    move_history := []
    position_history := []
    game_mode := .multiplayer }
  { s with position_history := [computePositionHash s] }

/-- Execute a list of moves in order (`none` as soon as one raises). -/
def execSeq (s : GameState) (ms : List Move) : Option GameState :=
  ms.foldlM executeMove s

/-! ## Game-end classifiers (`engine/chess_engine.py`) -/

/-- `is_checkmate`: current side in check and no legal moves. -/
def isCheckmate (s : GameState) : Bool :=
  isCheck s s.current_player && (getLegalMoves s s.current_player).length == 0

/-- `is_stalemate`: current side not in check and no legal moves. -/
def isStalemate (s : GameState) : Bool :=
  !isCheck s s.current_player && (getLegalMoves s s.current_player).length == 0

/-- `is_threefold_repetition`: history length at least 3 and the current
position's hash counted at least 3 times in the history. -/
def isThreefoldRepetition (s : GameState) : Bool :=
  if s.position_history.length < 3 then false
  else 3 ≤ s.position_history.count (computePositionHash s)

/-! ## Basic lemmas -/

@[simp] theorem setPiece_apply (b : Board) (sq : Square) (p : Piece) (x : Square) :
    b.setPiece sq p x = if x = sq then some p else b x := rfl

@[simp] theorem setOpt_apply (b : Board) (sq : Square) (v : Option Piece) (x : Square) :
    b.setOpt sq v x = if x = sq then v else b x := rfl

@[simp] theorem removePiece_apply (b : Board) (sq : Square) (x : Square) :
    b.removePiece sq x = if x = sq then none else b x := rfl

/-- C2: `is_checkmate` holds exactly when the side to move is in check with no
legal moves; `is_stalemate` exactly when it is not in check with no legal
moves; the two are mutually exclusive. -/
theorem checkmate_stalemate_characterization (s : GameState) :
    (isCheckmate s = true ↔
      isCheck s s.current_player = true ∧ getLegalMoves s s.current_player = []) ∧
    (isStalemate s = true ↔
      isCheck s s.current_player = false ∧ getLegalMoves s s.current_player = []) ∧
    ¬(isCheckmate s = true ∧ isStalemate s = true) := by
  unfold isCheckmate isStalemate
  refine ⟨?_, ?_, ?_⟩
  · simp [List.length_eq_zero]
  · simp [List.length_eq_zero]
  · rintro ⟨h1, h2⟩
    simp only [Bool.and_eq_true, Bool.not_eq_true'] at h1 h2
    rw [h1.1] at h2
    exact absurd h2.1 (by simp)

/-- C7: the position hash depends on exactly the board, side to move, castling
rights and en-passant target: two states agreeing on these four fields hash
equal, regardless of clocks, histories or game mode. -/
theorem position_hash_pure (s1 s2 : GameState)
    (hb : s1.board = s2.board)
    (hc : s1.current_player = s2.current_player)
    (hcr : s1.castling_rights = s2.castling_rights)
    (hep : s1.en_passant_target = s2.en_passant_target) :
    computePositionHash s1 = computePositionHash s2 := by
  unfold computePositionHash
  rw [hb, hc, hcr, hep]

/-- A board used by several concrete positions below: white king e1, white
pawn a2, black king e8. -/
def smallBoard : Board := fun sq =>
  if sq = ⟨4, 0⟩ then some ⟨.king, .white⟩
  else if sq = ⟨0, 1⟩ then some ⟨.pawn, .white⟩
  else if sq = ⟨4, 7⟩ then some ⟨.king, .black⟩
  else none

/-- Witness for `position_hash_pure`: two states sharing the four hashed
fields but differing in clocks, histories and mode hash equal. -/
theorem position_hash_pure_witness :
    computePositionHash
      { board := smallBoard, current_player := .white,
        castling_rights := ⟨false, false, false, false⟩, en_passant_target := none,
        halfmove_clock := 0, fullmove_number := 1, move_history := [],
        position_history := [], game_mode := .multiplayer } =
    computePositionHash
      { board := smallBoard, current_player := .white,
        castling_rights := ⟨false, false, false, false⟩, en_passant_target := none,
        halfmove_clock := 42, fullmove_number := 9, move_history := [],
        position_history := [1, 2, 3], game_mode := .single_player } :=
  position_hash_pure _ _ rfl rfl rfl rfl

/-! ## C8: threefold repetition -/

/-- Nf3: white knight g1 to f3. -/
def moveNf3 : Move := { from_square := ⟨6, 0⟩, to_square := ⟨5, 2⟩, piece := ⟨.knight, .white⟩ }

/-- Nf6: black knight g8 to f6. -/
def moveNf6 : Move := { from_square := ⟨6, 7⟩, to_square := ⟨5, 5⟩, piece := ⟨.knight, .black⟩ }

/-- Ng1: white knight f3 back to g1. -/
def moveNg1 : Move := { from_square := ⟨5, 2⟩, to_square := ⟨6, 0⟩, piece := ⟨.knight, .white⟩ }

/-- Ng8: black knight f6 back to g8. -/
def moveNg8 : Move := { from_square := ⟨5, 5⟩, to_square := ⟨6, 7⟩, piece := ⟨.knight, .black⟩ }

/-- The 4-ply shuffle Nf3 / Nf6 / Ng1 / Ng8. -/
def knightShuffle : List Move := [moveNf3, moveNf6, moveNg1, moveNg8]

/-- C8: `is_threefold_repetition` holds exactly when the current position's
hash occurs at least 3 times in the recorded history (the length pre-check is
subsumed); executing the knight shuffle twice from the initial position
reports a threefold repetition, executing it once does not. -/
theorem threefold_repetition_characterization :
    (∀ s : GameState,
      isThreefoldRepetition s = true ↔
        3 ≤ s.position_history.count (computePositionHash s)) ∧
    (execSeq initialGameState (knightShuffle ++ knightShuffle)).map isThreefoldRepetition
      = some true ∧
    (execSeq initialGameState knightShuffle).map isThreefoldRepetition = some false := by
  refine ⟨?_, by decide, by decide⟩
  intro s
  unfold isThreefoldRepetition
  split
  · next hlen =>
    refine ⟨fun hc => absurd hc (by simp), fun hc => ?_⟩
    have := s.position_history.count_le_length (computePositionHash s)
    omega
  · exact ⟨of_decide_eq_true, decide_eq_true⟩

/-! ## C9: algebraic conversion -/

theorem fileIndexOfChar_eq_none {c : Char} :
    fileIndexOfChar c = none ↔ ¬(97 ≤ c.toNat ∧ c.toNat ≤ 104) := by
  unfold fileIndexOfChar
  split_ifs with h <;> simp_all

theorem rankIndexOfChar_eq_none {c : Char} :
    rankIndexOfChar c = none ↔ ¬(49 ≤ c.toNat ∧ c.toNat ≤ 56) := by
  unfold rankIndexOfChar
  split_ifs with h <;> simp_all

/-- C9 counterexample: the two-character string with file character `'A'` and
rank character `'1'` has its file character outside `'a'`-`'h'`, yet
`from_algebraic` accepts it (the code lowercases the file character) instead
of failing. -/
theorem from_algebraic_accepts_uppercase_file :
    ('A' ∉ ['a', 'b', 'c', 'd', 'e', 'f', 'g', 'h']) ∧
    fromAlgebraic ⟨['A', '1']⟩ = some ⟨0, 0⟩ := by
  decide

/-- C9 (amended): the 64-square round-trip holds, and `from_algebraic` fails
exactly on wrong-length strings, file characters that are not a-h even after
lowercasing, and rank characters outside 1-8; it never clamps or defaults. -/
theorem square_algebraic_roundtrip_and_failure :
    (∀ f r : Fin 8, fromAlgebraic (Square.toAlgebraic ⟨f, r⟩) = some ⟨f, r⟩) ∧
    (∀ s : String, fromAlgebraic s = none ↔
      (s.data.length ≠ 2 ∨
        ∃ fc rc, s.data = [fc, rc] ∧
          (¬(97 ≤ fc.toLower.toNat ∧ fc.toLower.toNat ≤ 104) ∨
           ¬(49 ≤ rc.toNat ∧ rc.toNat ≤ 56)))) := by
  constructor
  · decide
  · intro s
    rcases s with ⟨data⟩
    match data with
    | [] => simp [fromAlgebraic]
    | [c] => simp [fromAlgebraic]
    | c1 :: c2 :: c3 :: rest => simp [fromAlgebraic]
    | [fc, rc] =>
      show fromAlgebraic ⟨[fc, rc]⟩ = none ↔ _
      cases hf : fileIndexOfChar fc.toLower with
      | none =>
        simp only [fromAlgebraic, hf, true_iff]
        exact Or.inr ⟨fc, rc, rfl, Or.inl (fileIndexOfChar_eq_none.mp hf)⟩
      | some f =>
        cases hr : rankIndexOfChar rc with
        | none =>
          simp only [fromAlgebraic, hf, hr, true_iff]
          exact Or.inr ⟨fc, rc, rfl, Or.inr (rankIndexOfChar_eq_none.mp hr)⟩
        | some r =>
          simp only [fromAlgebraic, hf, hr]
          constructor
          · intro h
            exact absurd h (by simp)
          · rintro (hlen | ⟨fc2, rc2, heq, hbad⟩)
            · exact absurd rfl hlen
            · obtain ⟨rfl, rfl⟩ : fc2 = fc ∧ rc2 = rc := by
                injection heq with h1 h2
                injection h2 with h2 h3
                exact ⟨h1.symm, h2.symm⟩
              rcases hbad with hbad | hbad
              · exact absurd (fileIndexOfChar_eq_none.mpr hbad) (by simp [hf])
              · exact absurd (rankIndexOfChar_eq_none.mpr hbad) (by simp [hr])

/-! ## C5: executor counters -/

/-- Claim C5's wording (for the counterexample): the moved piece is a pawn
that advanced exactly two ranks, i.e. moved two ranks in its own forward
direction. -/
def claimPawnAdvancedTwoRanks (m : Move) : Prop :=
  m.piece.pieceType = .pawn ∧
  (m.to_square.rank.val : Int) = m.from_square.rank.val + 2 * dirOf m.piece.color

/-- Board for the C5 counterexample: white pawn a7, white king e1, black king e8. -/
def boardC5 : Board := fun sq =>
  if sq = ⟨0, 6⟩ then some ⟨.pawn, .white⟩
  else if sq = ⟨4, 0⟩ then some ⟨.king, .white⟩
  else if sq = ⟨4, 7⟩ then some ⟨.king, .black⟩
  else none

/-- State for the C5 counterexample. -/
def stateC5 : GameState :=
  { board := boardC5, current_player := .white,
    castling_rights := ⟨false, false, false, false⟩ }

/-- The C5 counterexample move: the white pawn "moves" from a7 backward to a5
(two ranks, but not an advance). -/
def moveA7A5 : Move :=
  { from_square := ⟨0, 6⟩, to_square := ⟨0, 4⟩, piece := ⟨.pawn, .white⟩ }

/-- C5 counterexample: executing a white pawn move from a7 to a5 (a two-rank
move that is NOT an advance) still sets an en-passant target, and that target
a8 is not the square passed over (a6, rank index 5); so "target set iff the
pawn advanced two ranks, and then equals the passed-over square" fails. -/
theorem en_passant_target_counterexample :
    ((executeMove stateC5 moveA7A5).map (fun t => t.en_passant_target)
      = some (some ⟨0, 7⟩)) ∧
    ¬ claimPawnAdvancedTwoRanks moveA7A5 ∧
    ((moveA7A5.from_square.rank.val + moveA7A5.to_square.rank.val) / 2 = 5) := by
  refine ⟨by decide, ?_, by decide⟩
  rintro ⟨-, h⟩
  simp [moveA7A5, dirOf] at h
  omega

theorem calcEnPassantTarget_spec {m : Move} {ep : Option Square}
    (hc : calcEnPassantTarget m = some ep) :
    (ep ≠ none ↔
      (m.piece.pieceType = .pawn ∧
        ((m.to_square.rank.val : Int) - m.from_square.rank.val).natAbs = 2)) ∧
    (∀ t : Square, ep = some t →
      t.file = m.from_square.file ∧
      (t.rank.val : Int) = m.from_square.rank.val + dirOf m.piece.color) := by
  unfold calcEnPassantTarget at hc
  split_ifs at hc with h1 h2 h3
  · cases hc
    constructor
    · simp
      intro hp
      exact absurd hp h1
    · intro t ht
      exact absurd ht (by simp)
  · cases hc
    constructor
    · simp
      intro hp
      omega
    · intro t ht
      exact absurd ht (by simp)
  · cases hm : mkSquareI (m.from_square.file.val : Int) ((m.from_square.rank.val : Int) + 1) with
    | none => rw [hm] at hc; exact absurd hc (by simp)
    | some t0 =>
      rw [hm] at hc
      cases hc
      obtain ⟨hf, hr⟩ := mkSquareI_some hm
      refine ⟨by simpa using ⟨by simpa using h1, by omega⟩, fun t ht => ?_⟩
      cases ht
      refine ⟨?_, ?_⟩
      · exact Fin.ext (by exact_mod_cast hf)
      · rw [hr, h3]
        simp [dirOf]
  · cases hm : mkSquareI (m.from_square.file.val : Int) ((m.from_square.rank.val : Int) - 1) with
    | none => rw [hm] at hc; exact absurd hc (by simp)
    | some t0 =>
      rw [hm] at hc
      cases hc
      obtain ⟨hf, hr⟩ := mkSquareI_some hm
      refine ⟨by simpa using ⟨by simpa using h1, by omega⟩, fun t ht => ?_⟩
      cases ht
      refine ⟨?_, ?_⟩
      · exact Fin.ext (by exact_mod_cast hf)
      · rw [hr]
        have : m.piece.color = .black := by
          cases hcol : m.piece.color
          · exact absurd hcol h3
          · rfl
        rw [this]
        simp [dirOf]
        omega

theorem executeMove_eq_some {s : GameState} {m : Move} {s' : GameState}
    (h : executeMove s m = some s') :
    ∃ ep, calcEnPassantTarget m = some ep ∧
      s'.board = execBoard s.board m ∧
      s'.current_player = s.current_player.opposite ∧
      s'.castling_rights =
        (match m.captured_piece with
         | some cp =>
           if cp.pieceType = .rook then
             revokeForRookCapture
               (revokeForPiece s.castling_rights m.piece.pieceType m.piece.color m.from_square)
               m.to_square
           else revokeForPiece s.castling_rights m.piece.pieceType m.piece.color m.from_square
         | none =>
           revokeForPiece s.castling_rights m.piece.pieceType m.piece.color m.from_square) ∧
      s'.en_passant_target = ep ∧
      s'.halfmove_clock =
        (if m.piece.pieceType = .pawn ∨ m.captured_piece ≠ none then 0
         else s.halfmove_clock + 1) ∧
      s'.fullmove_number =
        (if s.current_player = .black then s.fullmove_number + 1 else s.fullmove_number) := by
  unfold executeMove at h
  cases hc : calcEnPassantTarget m with
  | none => rw [hc] at h; exact absurd h (by simp)
  | some ep =>
    rw [hc] at h
    have hs := Option.some.inj h
    subst hs
    exact ⟨ep, rfl, rfl, rfl, rfl, rfl, rfl, rfl⟩

/-- C5 (amended): after a successful `execute_move`, the en-passant target is
set iff the moved piece is a pawn whose rank changed by exactly two (in either
direction), and then it sits on the origin file one rank from the origin in
the pawn's own forward direction (the passed-over square whenever the pawn
really advanced); the halfmove clock resets to 0 on a pawn move or capture
and increments otherwise; the fullmove number increments exactly when the
side to move was Black. -/
theorem executor_counter_postconditions (s : GameState) (m : Move) (s' : GameState)
    (h : executeMove s m = some s') :
    (s'.en_passant_target ≠ none ↔
      (m.piece.pieceType = .pawn ∧
        ((m.to_square.rank.val : Int) - m.from_square.rank.val).natAbs = 2)) ∧
    (∀ t : Square, s'.en_passant_target = some t →
      t.file = m.from_square.file ∧
      (t.rank.val : Int) = m.from_square.rank.val + dirOf m.piece.color) ∧
    s'.halfmove_clock =
      (if m.piece.pieceType = .pawn ∨ m.captured_piece ≠ none then 0
       else s.halfmove_clock + 1) ∧
    s'.fullmove_number =
      (if s.current_player = .black then s.fullmove_number + 1 else s.fullmove_number) := by
  obtain ⟨ep, hc, -, -, -, hep, hhalf, hfull⟩ := executeMove_eq_some h
  obtain ⟨h1, h2⟩ := calcEnPassantTarget_spec hc
  rw [hep]
  exact ⟨h1, h2, hhalf, hfull⟩

/-- The white double pawn push e2-e4 (used by witnesses below). -/
def moveE2E4 : Move :=
  { from_square := ⟨4, 1⟩, to_square := ⟨4, 3⟩, piece := ⟨.pawn, .white⟩ }

/-- The state after e2-e4 from the initial position. -/
def stateAfterE2E4 : GameState :=
  (executeMove initialGameState moveE2E4).getD initialGameState

/-- Witness for `executor_counter_postconditions` at the concrete move e2-e4
from the initial position. -/
theorem executor_counter_postconditions_witness :
    (stateAfterE2E4.en_passant_target ≠ none ↔
      (moveE2E4.piece.pieceType = .pawn ∧
        ((moveE2E4.to_square.rank.val : Int) - moveE2E4.from_square.rank.val).natAbs = 2)) ∧
    (∀ t : Square, stateAfterE2E4.en_passant_target = some t →
      t.file = moveE2E4.from_square.file ∧
      (t.rank.val : Int) = moveE2E4.from_square.rank.val + dirOf moveE2E4.piece.color) ∧
    stateAfterE2E4.halfmove_clock =
      (if moveE2E4.piece.pieceType = .pawn ∨ moveE2E4.captured_piece ≠ none then 0
       else initialGameState.halfmove_clock + 1) ∧
    stateAfterE2E4.fullmove_number =
      (if initialGameState.current_player = .black then initialGameState.fullmove_number + 1
       else initialGameState.fullmove_number) :=
  executor_counter_postconditions initialGameState moveE2E4 stateAfterE2E4 (by rfl)

/-! ## C6: castling rights -/

theorem revokeForPiece_mono (cr : CastlingRights) (pt : PieceType) (c : Color) (sq : Square) :
    ((revokeForPiece cr pt c sq).white_kingside = true → cr.white_kingside = true) ∧
    ((revokeForPiece cr pt c sq).white_queenside = true → cr.white_queenside = true) ∧
    ((revokeForPiece cr pt c sq).black_kingside = true → cr.black_kingside = true) ∧
    ((revokeForPiece cr pt c sq).black_queenside = true → cr.black_queenside = true) := by
  cases cr
  unfold revokeForPiece
  cases pt <;> split_ifs <;> simp_all

theorem revokeForRookCapture_mono (cr : CastlingRights) (sq : Square) :
    ((revokeForRookCapture cr sq).white_kingside = true → cr.white_kingside = true) ∧
    ((revokeForRookCapture cr sq).white_queenside = true → cr.white_queenside = true) ∧
    ((revokeForRookCapture cr sq).black_kingside = true → cr.black_kingside = true) ∧
    ((revokeForRookCapture cr sq).black_queenside = true → cr.black_queenside = true) := by
  cases cr
  unfold revokeForRookCapture
  split_ifs <;> simp_all

theorem revokeForRookCapture_spec (cr : CastlingRights) (sq : Square) :
    (sq = ⟨0, 0⟩ → (revokeForRookCapture cr sq).white_queenside = false) ∧
    (sq = ⟨7, 0⟩ → (revokeForRookCapture cr sq).white_kingside = false) ∧
    (sq = ⟨0, 7⟩ → (revokeForRookCapture cr sq).black_queenside = false) ∧
    (sq = ⟨7, 7⟩ → (revokeForRookCapture cr sq).black_kingside = false) := by
  refine ⟨?_, ?_, ?_, ?_⟩ <;> rintro rfl <;> rfl

/-- C6: castling rights are monotonically decreasing across `execute_move`
(each surviving right was already held), both rights of a color are cleared
when its king moves, a rook moving from its home square clears that side's
right, and capturing a rook on a rook home square clears the corresponding
right. -/
theorem castling_rights_revocation (s : GameState) (m : Move) (s' : GameState)
    (h : executeMove s m = some s') :
    ((s'.castling_rights.white_kingside = true → s.castling_rights.white_kingside = true) ∧
     (s'.castling_rights.white_queenside = true → s.castling_rights.white_queenside = true) ∧
     (s'.castling_rights.black_kingside = true → s.castling_rights.black_kingside = true) ∧
     (s'.castling_rights.black_queenside = true → s.castling_rights.black_queenside = true)) ∧
    (m.piece.pieceType = .king →
      (m.piece.color = .white →
        s'.castling_rights.white_kingside = false ∧
        s'.castling_rights.white_queenside = false) ∧
      (m.piece.color = .black →
        s'.castling_rights.black_kingside = false ∧
        s'.castling_rights.black_queenside = false)) ∧
    (m.piece.pieceType = .rook →
      (m.piece.color = .white →
        (m.from_square = ⟨0, 0⟩ → s'.castling_rights.white_queenside = false) ∧
        (m.from_square = ⟨7, 0⟩ → s'.castling_rights.white_kingside = false)) ∧
      (m.piece.color = .black →
        (m.from_square = ⟨0, 7⟩ → s'.castling_rights.black_queenside = false) ∧
        (m.from_square = ⟨7, 7⟩ → s'.castling_rights.black_kingside = false))) ∧
    (∀ cp : Piece, m.captured_piece = some cp → cp.pieceType = .rook →
      (m.to_square = ⟨0, 0⟩ → s'.castling_rights.white_queenside = false) ∧
      (m.to_square = ⟨7, 0⟩ → s'.castling_rights.white_kingside = false) ∧
      (m.to_square = ⟨0, 7⟩ → s'.castling_rights.black_queenside = false) ∧
      (m.to_square = ⟨7, 7⟩ → s'.castling_rights.black_kingside = false)) := by
  obtain ⟨ep, hc, -, -, hcr, -, -, -⟩ := executeMove_eq_some h
  set cr1 := revokeForPiece s.castling_rights m.piece.pieceType m.piece.color m.from_square
    with hcr1
  have hmono1 := revokeForPiece_mono s.castling_rights m.piece.pieceType m.piece.color
    m.from_square
  refine ⟨?_, ?_, ?_, ?_⟩
  · -- monotonicity
    rw [hcr]
    cases hcap : m.captured_piece with
    | none => exact hmono1
    | some cp =>
      by_cases hrk : cp.pieceType = .rook
      · simp only [hrk, if_pos]
        have hmono2 := revokeForRookCapture_mono cr1 m.to_square
        exact ⟨fun hh => hmono1.1 (hmono2.1 hh), fun hh => hmono1.2.1 (hmono2.2.1 hh),
          fun hh => hmono1.2.2.1 (hmono2.2.2.1 hh), fun hh => hmono1.2.2.2 (hmono2.2.2.2 hh)⟩
      · simp only [hrk, if_neg, if_false]
        exact hmono1
  · -- king moves clear both rights of its color
    intro hking
    have h1 : (m.piece.color = .white → cr1.white_kingside = false ∧
        cr1.white_queenside = false) ∧
        (m.piece.color = .black → cr1.black_kingside = false ∧
        cr1.black_queenside = false) := by
      rw [hcr1]
      unfold revokeForPiece
      rw [hking]
      constructor <;> rintro hcol <;> rw [hcol] <;> simp
    rw [hcr]
    have hfalse : ∀ (cr2 : CastlingRights) (sq : Square),
        (cr2.white_kingside = false → (revokeForRookCapture cr2 sq).white_kingside = false) ∧
        (cr2.white_queenside = false → (revokeForRookCapture cr2 sq).white_queenside = false) ∧
        (cr2.black_kingside = false → (revokeForRookCapture cr2 sq).black_kingside = false) ∧
        (cr2.black_queenside = false → (revokeForRookCapture cr2 sq).black_queenside = false) := by
      intro cr2 sq
      have hm := revokeForRookCapture_mono cr2 sq
      refine ⟨?_, ?_, ?_, ?_⟩ <;> intro hh <;>
        [cases hv : (revokeForRookCapture cr2 sq).white_kingside;
         cases hv : (revokeForRookCapture cr2 sq).white_queenside;
         cases hv : (revokeForRookCapture cr2 sq).black_kingside;
         cases hv : (revokeForRookCapture cr2 sq).black_queenside] <;>
        first
          | rfl
          | (exfalso
             first
               | exact absurd (hm.1 hv) (by simp [hh])
               | exact absurd (hm.2.1 hv) (by simp [hh])
               | exact absurd (hm.2.2.1 hv) (by simp [hh])
               | exact absurd (hm.2.2.2 hv) (by simp [hh]))
    cases hcap : m.captured_piece with
    | none =>
      exact ⟨fun hcol => (h1.1 hcol), fun hcol => (h1.2 hcol)⟩
    | some cp =>
      by_cases hrk : cp.pieceType = .rook
      · simp only [hrk, if_pos]
        refine ⟨fun hcol => ?_, fun hcol => ?_⟩
        · obtain ⟨ha, hb⟩ := h1.1 hcol
          exact ⟨(hfalse cr1 m.to_square).1 ha, (hfalse cr1 m.to_square).2.1 hb⟩
        · obtain ⟨ha, hb⟩ := h1.2 hcol
          exact ⟨(hfalse cr1 m.to_square).2.2.1 ha, (hfalse cr1 m.to_square).2.2.2 hb⟩
      · simp only [hrk, if_neg, if_false]
        exact ⟨fun hcol => (h1.1 hcol), fun hcol => (h1.2 hcol)⟩
  · -- rook moves from its home square
    intro hrook
    have h1 : (m.piece.color = .white →
        (m.from_square = ⟨0, 0⟩ → cr1.white_queenside = false) ∧
        (m.from_square = ⟨7, 0⟩ → cr1.white_kingside = false)) ∧
        (m.piece.color = .black →
        (m.from_square = ⟨0, 7⟩ → cr1.black_queenside = false) ∧
        (m.from_square = ⟨7, 7⟩ → cr1.black_kingside = false)) := by
      rw [hcr1]
      unfold revokeForPiece
      rw [hrook]
      constructor <;> rintro hcol <;> rw [hcol] <;>
        constructor <;> intro hsq <;> rw [hsq] <;> rfl
    rw [hcr]
    have hfalse : ∀ (cr2 : CastlingRights) (sq : Square),
        (cr2.white_kingside = false → (revokeForRookCapture cr2 sq).white_kingside = false) ∧
        (cr2.white_queenside = false → (revokeForRookCapture cr2 sq).white_queenside = false) ∧
        (cr2.black_kingside = false → (revokeForRookCapture cr2 sq).black_kingside = false) ∧
        (cr2.black_queenside = false → (revokeForRookCapture cr2 sq).black_queenside = false) := by
      intro cr2 sq
      cases cr2
      unfold revokeForRookCapture
      split_ifs <;> simp_all
    cases hcap : m.captured_piece with
    | none => exact h1
    | some cp =>
      by_cases hrk : cp.pieceType = .rook
      · simp only [hrk, if_pos]
        refine ⟨fun hcol => ?_, fun hcol => ?_⟩
        · obtain ⟨ha, hb⟩ := h1.1 hcol
          exact ⟨fun hsq => (hfalse cr1 m.to_square).2.1 (ha hsq),
            fun hsq => (hfalse cr1 m.to_square).1 (hb hsq)⟩
        · obtain ⟨ha, hb⟩ := h1.2 hcol
          exact ⟨fun hsq => (hfalse cr1 m.to_square).2.2.2 (ha hsq),
            fun hsq => (hfalse cr1 m.to_square).2.2.1 (hb hsq)⟩
      · simp only [hrk, if_neg, if_false]
        exact h1
  · -- captured rook on a home corner
    intro cp hcap hrk
    rw [hcr, hcap]
    simp only [hrk, if_pos]
    have hs := revokeForRookCapture_spec cr1 m.to_square
    exact ⟨hs.1, hs.2.1, hs.2.2.1, hs.2.2.2⟩

/-- The state after Nf3 from the initial position. -/
def stateAfterNf3 : GameState :=
  (executeMove initialGameState moveNf3).getD initialGameState

/-- Witness for `castling_rights_revocation` at Nf3 from the initial position. -/
theorem castling_rights_revocation_witness :
    ((stateAfterNf3.castling_rights.white_kingside = true →
        initialGameState.castling_rights.white_kingside = true) ∧
     (stateAfterNf3.castling_rights.white_queenside = true →
        initialGameState.castling_rights.white_queenside = true) ∧
     (stateAfterNf3.castling_rights.black_kingside = true →
        initialGameState.castling_rights.black_kingside = true) ∧
     (stateAfterNf3.castling_rights.black_queenside = true →
        initialGameState.castling_rights.black_queenside = true)) ∧
    (moveNf3.piece.pieceType = .king →
      (moveNf3.piece.color = .white →
        stateAfterNf3.castling_rights.white_kingside = false ∧
        stateAfterNf3.castling_rights.white_queenside = false) ∧
      (moveNf3.piece.color = .black →
        stateAfterNf3.castling_rights.black_kingside = false ∧
        stateAfterNf3.castling_rights.black_queenside = false)) ∧
    (moveNf3.piece.pieceType = .rook →
      (moveNf3.piece.color = .white →
        (moveNf3.from_square = ⟨0, 0⟩ → stateAfterNf3.castling_rights.white_queenside = false) ∧
        (moveNf3.from_square = ⟨7, 0⟩ → stateAfterNf3.castling_rights.white_kingside = false)) ∧
      (moveNf3.piece.color = .black →
        (moveNf3.from_square = ⟨0, 7⟩ → stateAfterNf3.castling_rights.black_queenside = false) ∧
        (moveNf3.from_square = ⟨7, 7⟩ → stateAfterNf3.castling_rights.black_kingside = false))) ∧
    (∀ cp : Piece, moveNf3.captured_piece = some cp → cp.pieceType = .rook →
      (moveNf3.to_square = ⟨0, 0⟩ → stateAfterNf3.castling_rights.white_queenside = false) ∧
      (moveNf3.to_square = ⟨7, 0⟩ → stateAfterNf3.castling_rights.white_kingside = false) ∧
      (moveNf3.to_square = ⟨0, 7⟩ → stateAfterNf3.castling_rights.black_queenside = false) ∧
      (moveNf3.to_square = ⟨7, 7⟩ → stateAfterNf3.castling_rights.black_kingside = false)) :=
  castling_rights_revocation initialGameState moveNf3 stateAfterNf3 (by rfl)

/-! ## C10: `is_square_attacked` ignores the target square's content -/

theorem listAllCongr {α : Type} {l : List α} {f g : α → Bool}
    (h : ∀ x ∈ l, f x = g x) : l.all f = l.all g := by
  induction l with
  | nil => rfl
  | cons a t ih =>
    simp only [List.all_cons]
    rw [h a (by simp), ih fun x hx => h x (by simp [hx])]

theorem listAnyCongr {α : Type} {l : List α} {f g : α → Bool}
    (h : ∀ x ∈ l, f x = g x) : l.any f = l.any g := by
  induction l with
  | nil => rfl
  | cons a t ih =>
    simp only [List.any_cons]
    rw [h a (by simp), ih fun x hx => h x (by simp [hx])]

theorem canPieceAttack_self (b : Board) (p : Piece) (t : Square) :
    canPieceAttack b t p t = false := by
  unfold canPieceAttack
  cases p.pieceType
  · unfold canPawnAttack
    apply decide_eq_false
    cases hcol : p.color <;> simp
  · unfold canKnightAttack
    apply decide_eq_false
    simp
  · unfold canBishopAttack
    simp
  · unfold canRookAttack
    simp
  · unfold canQueenAttack canBishopAttack canRookAttack
    simp
  · unfold canKingAttack
    apply decide_eq_false
    simp

theorem isPathClear_congr {b1 b2 : Board} {fromSq toSq : Square}
    (h : ∀ sq, sq ≠ toSq → b1 sq = b2 sq) :
    isPathClear b1 fromSq toSq = isPathClear b2 fromSq toSq := by
  unfold isPathClear
  apply listAllCongr
  intro e he
  have hne := pathSquares_ne_target he
  have hread : boardGetI b1 e.1 e.2 = boardGetI b2 e.1 e.2 := by
    unfold boardGetI
    cases hm : mkSquareI e.1 e.2 with
    | none => rfl
    | some sq =>
      obtain ⟨hf, hr⟩ := mkSquareI_some hm
      refine h sq fun heq => hne ?_
      subst heq
      have : e = (e.1, e.2) := rfl
      rw [this, ← hf, ← hr]
  rw [hread]

theorem canPieceAttack_congr {b1 b2 : Board} (p : Piece) (fromSq target : Square)
    (h : ∀ sq, sq ≠ target → b1 sq = b2 sq) :
    canPieceAttack b1 fromSq p target = canPieceAttack b2 fromSq p target := by
  unfold canPieceAttack
  cases p.pieceType
  · rfl
  · rfl
  · unfold canBishopAttack
    rw [isPathClear_congr h]
  · unfold canRookAttack
    rw [isPathClear_congr h]
  · unfold canQueenAttack canBishopAttack canRookAttack
    rw [isPathClear_congr h]
  · rfl

theorem isSquareAttackedB_congr {b1 b2 : Board} (target : Square) (c : Color)
    (h : ∀ sq, sq ≠ target → b1 sq = b2 sq) :
    isSquareAttackedB b1 target c = isSquareAttackedB b2 target c := by
  unfold isSquareAttackedB
  apply listAnyCongr
  intro sq hsq
  by_cases heq : sq = target
  · subst heq
    have h1 : ∀ b : Board,
        (match b sq with
         | some p => p.color = c && canPieceAttack b sq p sq
         | none => false) = false := by
      intro b
      cases b sq with
      | none => rfl
      | some p => simp [canPieceAttack_self]
    rw [h1 b1, h1 b2]
  · rw [h sq heq]
    cases b2 sq with
    | none => rfl
    | some p =>
      dsimp only
      rw [canPieceAttack_congr p sq target h]

/-- C10: `is_square_attacked` never reads the contents of the target square:
two states whose boards agree everywhere except possibly at the target square
get the same answer (so a defended piece is reported attacked exactly as the
empty square would be). -/
theorem is_square_attacked_ignores_target (s1 s2 : GameState) (t : Square) (c : Color)
    (h : ∀ f r : Fin 8, (⟨f, r⟩ : Square) ≠ t → s1.board ⟨f, r⟩ = s2.board ⟨f, r⟩) :
    isSquareAttacked s1 t c = isSquareAttacked s2 t c := by
  unfold isSquareAttacked
  exact isSquareAttackedB_congr t c fun sq hsq => h sq.file sq.rank hsq

/-- Board agreeing with `smallBoard` except at e4, which holds a black rook
(on `smallBoard` e4 is empty). -/
def smallBoardRookE4 : Board := fun sq =>
  if sq = ⟨4, 3⟩ then some ⟨.rook, .black⟩ else smallBoard sq

/-- Witness for `is_square_attacked_ignores_target`: whether e4 is attacked by
white is the same whether e4 is empty or holds a black rook. -/
theorem is_square_attacked_ignores_target_witness :
    isSquareAttacked
      { board := smallBoard, current_player := .white,
        castling_rights := ⟨false, false, false, false⟩ } ⟨4, 3⟩ .white =
    isSquareAttacked
      { board := smallBoardRookE4, current_player := .white,
        castling_rights := ⟨false, false, false, false⟩ } ⟨4, 3⟩ .white :=
  is_square_attacked_ignores_target _ _ ⟨4, 3⟩ .white (by decide)

/-! ## Structural facts about generated moves -/

theorem mem_offsetMove {s : GameState} {sq : Square} {p : Piece} {fo ro : Int} {m : Move}
    (h : m ∈ offsetMove s sq p fo ro) :
    m.from_square = sq ∧ m.piece = p ∧ m.is_castling = false ∧ m.is_en_passant = false ∧
      m.promotion_piece = none := by
  unfold offsetMove at h
  cases hm : mkSquareI ((sq.file.val : Int) + fo) ((sq.rank.val : Int) + ro) with
  | none => rw [hm] at h; simp at h
  | some t =>
    rw [hm] at h
    dsimp only at h
    cases hb : s.board t with
    | none =>
      rw [hb] at h
      simp only [List.mem_singleton] at h
      subst h
      exact ⟨rfl, rfl, rfl, rfl, rfl⟩
    | some tp =>
      rw [hb] at h
      dsimp only at h
      split_ifs at h
      · simp only [List.mem_singleton] at h
        subst h
        exact ⟨rfl, rfl, rfl, rfl, rfl⟩
      · simp at h

theorem mem_slideAux {s : GameState} {sq : Square} {p : Piece} {df dr : Int} :
    ∀ {n : Nat} {cf cr : Int} {m : Move}, m ∈ slideAux s sq p df dr cf cr n →
    m.from_square = sq ∧ m.piece = p ∧ m.is_castling = false ∧ m.is_en_passant = false ∧
      m.promotion_piece = none := by
  intro n
  induction n with
  | zero => intro cf cr m h; simp [slideAux] at h
  | succ n ih =>
    intro cf cr m h
    unfold slideAux at h
    cases hm : mkSquareI cf cr with
    | none => rw [hm] at h; simp at h
    | some t =>
      rw [hm] at h
      dsimp only at h
      cases hb : s.board t with
      | none =>
        rw [hb] at h
        rcases List.mem_cons.mp h with h | h
        · subst h
          exact ⟨rfl, rfl, rfl, rfl, rfl⟩
        · exact ih h
      | some tp =>
        rw [hb] at h
        dsimp only at h
        split_ifs at h
        · simp only [List.mem_singleton] at h
          subst h
          exact ⟨rfl, rfl, rfl, rfl, rfl⟩
        · simp at h

theorem mem_generateSlidingMoves {s : GameState} {sq : Square} {p : Piece} {df dr : Int}
    {m : Move} (h : m ∈ generateSlidingMoves s sq p df dr) :
    m.from_square = sq ∧ m.piece = p ∧ m.is_castling = false ∧ m.is_en_passant = false ∧
      m.promotion_piece = none :=
  mem_slideAux h

theorem mem_generateKnightMoves {s : GameState} {sq : Square} {p : Piece} {m : Move}
    (h : m ∈ generateKnightMoves s sq p) :
    m.from_square = sq ∧ m.piece = p ∧ m.is_castling = false ∧ m.is_en_passant = false ∧
      m.promotion_piece = none := by
  unfold generateKnightMoves at h
  obtain ⟨d, -, hd⟩ := List.mem_flatMap.mp h
  exact mem_offsetMove hd

theorem mem_generateBishopMoves {s : GameState} {sq : Square} {p : Piece} {m : Move}
    (h : m ∈ generateBishopMoves s sq p) :
    m.from_square = sq ∧ m.piece = p ∧ m.is_castling = false ∧ m.is_en_passant = false ∧
      m.promotion_piece = none := by
  unfold generateBishopMoves at h
  obtain ⟨d, -, hd⟩ := List.mem_flatMap.mp h
  exact mem_generateSlidingMoves hd

theorem mem_generateRookMoves {s : GameState} {sq : Square} {p : Piece} {m : Move}
    (h : m ∈ generateRookMoves s sq p) :
    m.from_square = sq ∧ m.piece = p ∧ m.is_castling = false ∧ m.is_en_passant = false ∧
      m.promotion_piece = none := by
  unfold generateRookMoves at h
  obtain ⟨d, -, hd⟩ := List.mem_flatMap.mp h
  exact mem_generateSlidingMoves hd

theorem mem_generateQueenMoves {s : GameState} {sq : Square} {p : Piece} {m : Move}
    (h : m ∈ generateQueenMoves s sq p) :
    m.from_square = sq ∧ m.piece = p ∧ m.is_castling = false ∧ m.is_en_passant = false ∧
      m.promotion_piece = none := by
  unfold generateQueenMoves at h
  obtain ⟨d, -, hd⟩ := List.mem_flatMap.mp h
  exact mem_generateSlidingMoves hd

theorem promoTypes_ne_king {pt : PieceType} (h : pt ∈ promoTypes) : pt ≠ .king := by
  simp only [promoTypes, List.mem_cons, List.not_mem_nil, or_false] at h
  rcases h with rfl | rfl | rfl | rfl <;> simp

theorem mem_pawnForwardMoves {s : GameState} {sq : Square} {p : Piece} {m : Move}
    (h : m ∈ pawnForwardMoves s sq p) :
    m.from_square = sq ∧ m.piece = p ∧ m.is_castling = false ∧ m.is_en_passant = false ∧
    m.promotion_piece ≠ some .king ∧
    ((m.to_square.rank.val : Int) = (sq.rank.val : Int) + dirOf p.color ∨
     ((m.to_square.rank.val : Int) = (sq.rank.val : Int) + 2 * dirOf p.color ∧
       sq.rank.val = startRankOf p.color)) := by
  unfold pawnForwardMoves at h
  cases hm : mkSquareI sq.file.val ((sq.rank.val : Int) + dirOf p.color) with
  | none => rw [hm] at h; simp at h
  | some fsq =>
    rw [hm] at h
    dsimp only at h
    obtain ⟨-, hr⟩ := mkSquareI_some hm
    by_cases hb : s.board fsq = none
    · rw [if_pos hb] at h
      by_cases hpr : fsq.rank.val = 7 ∨ fsq.rank.val = 0
      · rw [if_pos hpr] at h
        obtain ⟨pt, hpt, rfl⟩ := List.mem_map.mp h
        exact ⟨rfl, rfl, rfl, rfl, by simp [promoTypes_ne_king hpt], Or.inl hr⟩
      · rw [if_neg hpr] at h
        rcases List.mem_cons.mp h with rfl | h2
        · exact ⟨rfl, rfl, rfl, rfl, by simp, Or.inl hr⟩
        · by_cases hstart : sq.rank.val = startRankOf p.color
          · rw [if_pos hstart] at h2
            cases hm2 : mkSquareI sq.file.val ((sq.rank.val : Int) + 2 * dirOf p.color) with
            | none => rw [hm2] at h2; simp at h2
            | some tsq =>
              rw [hm2] at h2
              dsimp only at h2
              obtain ⟨-, hr2⟩ := mkSquareI_some hm2
              by_cases hb2 : s.board tsq = none
              · rw [if_pos hb2] at h2
                obtain rfl := List.mem_singleton.mp h2
                exact ⟨rfl, rfl, rfl, rfl, by simp, Or.inr ⟨hr2, hstart⟩⟩
              · rw [if_neg hb2] at h2
                simp at h2
          · rw [if_neg hstart] at h2
            simp at h2
    · rw [if_neg hb] at h
      simp at h

theorem mem_pawnCapturesAt {s : GameState} {sq : Square} {p : Piece} {fo : Int} {m : Move}
    (h : m ∈ pawnCapturesAt s sq p fo) :
    m.from_square = sq ∧ m.piece = p ∧ m.is_castling = false ∧
    m.promotion_piece ≠ some .king ∧
    (m.is_en_passant = true →
      m.promotion_piece = none ∧ s.en_passant_target = some m.to_square) ∧
    (m.to_square.rank.val : Int) = (sq.rank.val : Int) + dirOf p.color := by
  unfold pawnCapturesAt at h
  cases hm : mkSquareI ((sq.file.val : Int) + fo) ((sq.rank.val : Int) + dirOf p.color) with
  | none => rw [hm] at h; simp at h
  | some csq =>
    rw [hm] at h
    dsimp only at h
    obtain ⟨-, hr⟩ := mkSquareI_some hm
    have hep : ∀ hmem : m ∈ (if s.en_passant_target = some csq then
        [{ from_square := sq, to_square := csq, piece := p,
           captured_piece := s.board ⟨csq.file, sq.rank⟩, is_en_passant := true }] else []),
        m.from_square = sq ∧ m.piece = p ∧ m.is_castling = false ∧
        m.promotion_piece ≠ some .king ∧
        (m.is_en_passant = true →
          m.promotion_piece = none ∧ s.en_passant_target = some m.to_square) ∧
        (m.to_square.rank.val : Int) = (sq.rank.val : Int) + dirOf p.color := by
      intro hmem
      by_cases htgt : s.en_passant_target = some csq
      · rw [if_pos htgt] at hmem
        obtain rfl := List.mem_singleton.mp hmem
        exact ⟨rfl, rfl, rfl, by simp, fun _ => ⟨rfl, htgt⟩, hr⟩
      · rw [if_neg htgt] at hmem
        simp at hmem
    cases hb : s.board csq with
    | none =>
      rw [hb] at h
      exact hep h
    | some tp =>
      rw [hb] at h
      dsimp only at h
      by_cases hcol : tp.color ≠ p.color
      · rw [if_pos hcol] at h
        by_cases hpr : csq.rank.val = 7 ∨ csq.rank.val = 0
        · rw [if_pos hpr] at h
          obtain ⟨pt, hpt, rfl⟩ := List.mem_map.mp h
          exact ⟨rfl, rfl, rfl, by simp [promoTypes_ne_king hpt],
            fun hfalse => absurd hfalse (by simp), hr⟩
        · rw [if_neg hpr] at h
          obtain rfl := List.mem_singleton.mp h
          exact ⟨rfl, rfl, rfl, by simp, fun hfalse => absurd hfalse (by simp), hr⟩
      · rw [if_neg hcol] at h
        exact hep h

theorem mem_generatePawnMoves {s : GameState} {sq : Square} {p : Piece} {m : Move}
    (h : m ∈ generatePawnMoves s sq p) :
    m.from_square = sq ∧ m.piece = p ∧ m.is_castling = false ∧
    m.promotion_piece ≠ some .king ∧
    (m.is_en_passant = true →
      m.promotion_piece = none ∧ s.en_passant_target = some m.to_square) ∧
    ((m.to_square.rank.val : Int) = (sq.rank.val : Int) + dirOf p.color ∨
     ((m.to_square.rank.val : Int) = (sq.rank.val : Int) + 2 * dirOf p.color ∧
       sq.rank.val = startRankOf p.color)) := by
  unfold generatePawnMoves at h
  rcases List.mem_append.mp h with h1 | hcap
  · rcases List.mem_append.mp h1 with hfwd | hcap
    · obtain ⟨ha, hb, hc, hd, he, hf⟩ := mem_pawnForwardMoves hfwd
      exact ⟨ha, hb, hc, he, fun hep => absurd hep (by simp [hd]), hf⟩
    · obtain ⟨ha, hb, hc, hd, he, hf⟩ := mem_pawnCapturesAt hcap
      exact ⟨ha, hb, hc, hd, he, Or.inl hf⟩
  · obtain ⟨ha, hb, hc, hd, he, hf⟩ := mem_pawnCapturesAt hcap
    exact ⟨ha, hb, hc, hd, he, Or.inl hf⟩

theorem mem_generateCastlingMoves {s : GameState} {sq : Square} {p : Piece} {m : Move}
    (h : m ∈ generateCastlingMoves s sq p) :
    m.from_square = sq ∧ m.piece = p ∧ m.is_castling = true ∧ m.is_en_passant = false ∧
    m.promotion_piece = none ∧ m.captured_piece = none ∧
    (m.to_square.file.val = 6 ∨ m.to_square.file.val = 2) ∧
    sq = ⟨4, if p.color = .white then 0 else 7⟩ ∧
    m.to_square.rank = (if p.color = .white then (0 : Fin 8) else 7) := by
  unfold generateCastlingMoves at h
  by_cases hcol : p.color = .white
  · rw [if_pos hcol] at h
    rcases List.mem_append.mp h with h | h
    · by_cases h1 : s.castling_rights.white_kingside ∧ sq = ⟨4, 0⟩
      · rw [if_pos h1] at h
        split_ifs at h with h2
        · cases hb : s.board ⟨7, 0⟩ with
          | none => rw [hb] at h; simp at h
          | some rk =>
            rw [hb] at h
            dsimp only at h
            split_ifs at h with h3
            · obtain rfl := List.mem_singleton.mp h
              exact ⟨rfl, rfl, rfl, rfl, rfl, rfl, Or.inl rfl, by rw [if_pos hcol]; exact h1.2,
                by rw [if_pos hcol]⟩
            · simp at h
        · simp at h
      · rw [if_neg h1] at h
        simp at h
    · by_cases h1 : s.castling_rights.white_queenside ∧ sq = ⟨4, 0⟩
      · rw [if_pos h1] at h
        split_ifs at h with h2
        · cases hb : s.board ⟨0, 0⟩ with
          | none => rw [hb] at h; simp at h
          | some rk =>
            rw [hb] at h
            dsimp only at h
            split_ifs at h with h3
            · obtain rfl := List.mem_singleton.mp h
              exact ⟨rfl, rfl, rfl, rfl, rfl, rfl, Or.inr rfl, by rw [if_pos hcol]; exact h1.2,
                by rw [if_pos hcol]⟩
            · simp at h
        · simp at h
      · rw [if_neg h1] at h
        simp at h
  · rw [if_neg hcol] at h
    rcases List.mem_append.mp h with h | h
    · by_cases h1 : s.castling_rights.black_kingside ∧ sq = ⟨4, 7⟩
      · rw [if_pos h1] at h
        split_ifs at h with h2
        · cases hb : s.board ⟨7, 7⟩ with
          | none => rw [hb] at h; simp at h
          | some rk =>
            rw [hb] at h
            dsimp only at h
            split_ifs at h with h3
            · obtain rfl := List.mem_singleton.mp h
              exact ⟨rfl, rfl, rfl, rfl, rfl, rfl, Or.inl rfl, by rw [if_neg hcol]; exact h1.2,
                by rw [if_neg hcol]⟩
            · simp at h
        · simp at h
      · rw [if_neg h1] at h
        simp at h
    · by_cases h1 : s.castling_rights.black_queenside ∧ sq = ⟨4, 7⟩
      · rw [if_pos h1] at h
        split_ifs at h with h2
        · cases hb : s.board ⟨0, 7⟩ with
          | none => rw [hb] at h; simp at h
          | some rk =>
            rw [hb] at h
            dsimp only at h
            split_ifs at h with h3
            · obtain rfl := List.mem_singleton.mp h
              exact ⟨rfl, rfl, rfl, rfl, rfl, rfl, Or.inr rfl, by rw [if_neg hcol]; exact h1.2,
                by rw [if_neg hcol]⟩
            · simp at h
        · simp at h
      · rw [if_neg h1] at h
        simp at h

theorem mem_generateKingMoves {s : GameState} {sq : Square} {p : Piece} {m : Move}
    (h : m ∈ generateKingMoves s sq p) :
    m.from_square = sq ∧ m.piece = p ∧
    (m.is_castling = false ∧ m.is_en_passant = false ∧ m.promotion_piece = none ∨
     m.is_castling = true ∧ m.is_en_passant = false ∧ m.promotion_piece = none ∧
       (m.to_square.file.val = 6 ∨ m.to_square.file.val = 2) ∧
       sq = ⟨4, if p.color = .white then 0 else 7⟩) := by
  unfold generateKingMoves at h
  rcases List.mem_append.mp h with h | h
  · obtain ⟨d, -, hd⟩ := List.mem_flatMap.mp h
    obtain ⟨ha, hb, hc, hd2, he⟩ := mem_offsetMove hd
    exact ⟨ha, hb, Or.inl ⟨hc, hd2, he⟩⟩
  · obtain ⟨ha, hb, hc, hd2, he, -, hg, hh, -⟩ := mem_generateCastlingMoves h
    exact ⟨ha, hb, Or.inr ⟨hc, hd2, he, hg, hh⟩⟩

/-- Structural facts true of every pseudo-legal move the generator produces
for color `c` on state `s`. -/
structure GenFacts (s : GameState) (c : Color) (m : Move) : Prop where
  piece_at : s.board m.from_square = some m.piece
  color_eq : m.piece.color = c
  promo_not_king : m.promotion_piece ≠ some .king
  castle_type : m.is_castling = true → m.piece.pieceType = .king
  castle_noep : m.is_castling = true → m.is_en_passant = false
  castle_nopromo : m.is_castling = true → m.promotion_piece = none
  castle_file : m.is_castling = true → m.to_square.file.val = 6 ∨ m.to_square.file.val = 2
  castle_from : m.is_castling = true → m.from_square = ⟨4, if c = .white then 0 else 7⟩
  ep_nocastle : m.is_en_passant = true → m.is_castling = false
  ep_nopromo : m.is_en_passant = true → m.promotion_piece = none
  ep_target : m.is_en_passant = true → s.en_passant_target = some m.to_square
  ep_rank : m.is_en_passant = true → m.to_square.rank ≠ m.from_square.rank
  pawn_double : m.piece.pieceType = .pawn →
    ((m.to_square.rank.val : Int) - m.from_square.rank.val).natAbs = 2 →
    m.from_square.rank.val = startRankOf m.piece.color

theorem dirOf_cases (c : Color) : dirOf c = 1 ∨ dirOf c = -1 := by
  unfold dirOf
  split_ifs <;> simp

theorem genFacts_of_mem {s : GameState} {c : Color} {m : Move}
    (h : m ∈ generatePseudoLegalMoves s c) : GenFacts s c m := by
  unfold generatePseudoLegalMoves at h
  obtain ⟨sq, -, hsq⟩ := List.mem_flatMap.mp h
  cases hb : s.board sq with
  | none => rw [hb] at hsq; simp at hsq
  | some p =>
    rw [hb] at hsq
    dsimp only at hsq
    split_ifs at hsq with hcol
    case neg => simp at hsq
    unfold generatePieceMoves at hsq
    rw [hb] at hsq
    dsimp only at hsq
    have vac : ∀ {b : Bool} (P : Prop), b = false → (b = true → P) := by
      intro b P hfalse htrue
      rw [hfalse] at htrue
      exact absurd htrue (by simp)
    cases hpt : p.pieceType with
    | pawn =>
      rw [hpt] at hsq
      obtain ⟨ha, hb2, hc, hd, he, hf⟩ := mem_generatePawnMoves hsq
      subst ha
      subst hb2
      have hdir := dirOf_cases m.piece.color
      refine ⟨hb, hcol, hd, vac _ hc, vac _ hc, vac _ hc, vac _ hc, vac _ hc,
        fun _ => hc, fun hep => (he hep).1, fun hep => (he hep).2, ?_, ?_⟩
      · intro _ heq
        have hv : (m.to_square.rank.val : Int) = m.from_square.rank.val := by
          rw [heq]
        rcases hf with hf | ⟨hf, -⟩ <;> rcases hdir with hd1 | hd1 <;> rw [hd1] at hf <;> omega
      · intro _ habs
        rcases hf with hf | ⟨hf, hst⟩
        · rcases hdir with hd1 | hd1 <;> rw [hd1] at hf <;> omega
        · exact hst
    | knight =>
      rw [hpt] at hsq
      obtain ⟨ha, hb2, hc, hd, he⟩ := mem_generateKnightMoves hsq
      subst ha
      subst hb2
      exact ⟨hb, hcol, by simp [he], vac _ hc, vac _ hc, vac _ hc, vac _ hc, vac _ hc,
        vac _ hd, vac _ hd, vac _ hd, vac _ hd,
        fun habs => absurd (hpt ▸ habs) (by simp)⟩
    | bishop =>
      rw [hpt] at hsq
      obtain ⟨ha, hb2, hc, hd, he⟩ := mem_generateBishopMoves hsq
      subst ha
      subst hb2
      exact ⟨hb, hcol, by simp [he], vac _ hc, vac _ hc, vac _ hc, vac _ hc, vac _ hc,
        vac _ hd, vac _ hd, vac _ hd, vac _ hd,
        fun habs => absurd (hpt ▸ habs) (by simp)⟩
    | rook =>
      rw [hpt] at hsq
      obtain ⟨ha, hb2, hc, hd, he⟩ := mem_generateRookMoves hsq
      subst ha
      subst hb2
      exact ⟨hb, hcol, by simp [he], vac _ hc, vac _ hc, vac _ hc, vac _ hc, vac _ hc,
        vac _ hd, vac _ hd, vac _ hd, vac _ hd,
        fun habs => absurd (hpt ▸ habs) (by simp)⟩
    | queen =>
      rw [hpt] at hsq
      obtain ⟨ha, hb2, hc, hd, he⟩ := mem_generateQueenMoves hsq
      subst ha
      subst hb2
      exact ⟨hb, hcol, by simp [he], vac _ hc, vac _ hc, vac _ hc, vac _ hc, vac _ hc,
        vac _ hd, vac _ hd, vac _ hd, vac _ hd,
        fun habs => absurd (hpt ▸ habs) (by simp)⟩
    | king =>
      rw [hpt] at hsq
      obtain ⟨ha, hb2, hflags⟩ := mem_generateKingMoves hsq
      subst ha
      subst hb2
      rcases hflags with ⟨hc, hd, he⟩ | ⟨hc, hd, he, hfile, hfrom⟩
      · exact ⟨hb, hcol, by simp [he], vac _ hc, vac _ hc, vac _ hc, vac _ hc, vac _ hc,
          vac _ hd, vac _ hd, vac _ hd, vac _ hd,
          fun habs => absurd (hpt ▸ habs) (by simp)⟩
      · exact ⟨hb, hcol, by simp [he], fun _ => hpt, fun _ => hd, fun _ => he,
          fun _ => hfile, fun _ => by rw [hfrom, hcol],
          vac _ hd, vac _ hd, vac _ hd, vac _ hd,
          fun habs => absurd (hpt ▸ habs) (by simp)⟩

/-! ## C1: legal moves never leave the mover in check -/

theorem tempBoard_eq_execBoard {b : Board} {m : Move}
    (hcast : m.is_castling = true →
      m.is_en_passant = false ∧ m.promotion_piece = none ∧
      (m.to_square.file.val = 6 ∨ m.to_square.file.val = 2))
    (hepf : m.is_en_passant = true →
      m.promotion_piece = none ∧ m.to_square.rank ≠ m.from_square.rank) :
    tempBoard b m = execBoard b m := by
  cases hc : m.is_castling with
  | true =>
    obtain ⟨h1, h2, h3⟩ := hcast hc
    unfold tempBoard execBoard
    rw [hc, h1, h2]
    simp only [Bool.false_eq_true, if_false, if_true]
    unfold castleRookShift
    rcases h3 with h6 | h6
    · have hne7 : m.to_square ≠ ⟨7, m.from_square.rank⟩ := by
        intro heq
        have hfe : m.to_square.file = (7 : Fin 8) := congrArg Square.file heq
        rw [hfe] at h6
        exact absurd h6 (by decide)
      have hne5 : m.to_square ≠ ⟨5, m.from_square.rank⟩ := by
        intro heq
        have hfe : m.to_square.file = (5 : Fin 8) := congrArg Square.file heq
        rw [hfe] at h6
        exact absurd h6 (by decide)
      rw [if_pos h6]
      funext x
      simp only [setPiece_apply, setOpt_apply, removePiece_apply]
      split_ifs <;> simp_all
    · have hne0 : m.to_square ≠ ⟨0, m.from_square.rank⟩ := by
        intro heq
        have hfe : m.to_square.file = (0 : Fin 8) := congrArg Square.file heq
        rw [hfe] at h6
        exact absurd h6 (by decide)
      have hne3 : m.to_square ≠ ⟨3, m.from_square.rank⟩ := by
        intro heq
        have hfe : m.to_square.file = (3 : Fin 8) := congrArg Square.file heq
        rw [hfe] at h6
        exact absurd h6 (by decide)
      have h6x : ¬(m.to_square.file.val = 6) := by
        rw [h6]
        decide
      rw [if_neg h6x]
      funext x
      simp only [setPiece_apply, setOpt_apply, removePiece_apply]
      split_ifs <;> simp_all
  | false =>
    cases he : m.is_en_passant with
    | true =>
      obtain ⟨h2, h3⟩ := hepf he
      unfold tempBoard execBoard
      rw [hc, he, h2]
      simp only [Bool.false_eq_true, if_false, if_true]
      have hne : m.to_square ≠ (⟨m.to_square.file, m.from_square.rank⟩ : Square) := by
        intro heq
        exact h3 (by rw [heq])
      funext x
      simp only [setPiece_apply, removePiece_apply]
      split_ifs <;> simp_all
    | false =>
      unfold tempBoard execBoard
      rw [hc, he]
      simp only [Bool.false_eq_true, if_false]

theorem wlc_false_of_legal {s : GameState} {m : Move} (h : isLegalMove s m = true) :
    wouldLeaveInCheck s m = false := by
  unfold isLegalMove at h
  by_cases h1 : m.is_castling = true
  · rw [if_pos h1] at h
    unfold validateCastling at h
    by_cases h3 : isCheck s m.piece.color = true
    · rw [if_pos h3] at h
      exact absurd h (by simp)
    · rw [if_neg h3] at h
      cases hm : (if m.from_square.file.val < m.to_square.file.val then
          mkSquareI ((m.from_square.file.val : Int) + 1) m.from_square.rank.val
        else mkSquareI ((m.from_square.file.val : Int) - 1) m.from_square.rank.val) with
      | none =>
        rw [hm] at h
        exact absurd h (by simp)
      | some isq =>
        rw [hm] at h
        dsimp only at h
        by_cases h4 : isSquareAttacked s isq m.piece.color.opposite = true
        · rw [if_pos h4] at h
          exact absurd h (by simp)
        · rw [if_neg h4] at h
          simpa using h
  · rw [if_neg h1] at h
    by_cases h2 : m.is_en_passant = true
    · rw [if_pos h2] at h
      unfold validateEnPassant at h
      by_cases h5 : s.en_passant_target = some m.to_square
      · rw [if_pos h5] at h
        simpa using h
      · rw [if_neg h5] at h
        exact absurd h (by simp)
    · rw [if_neg h2] at h
      simpa using h

theorem calcEP_some_of_genFacts {s : GameState} {c : Color} {m : Move}
    (F : GenFacts s c m) : ∃ ep, calcEnPassantTarget m = some ep := by
  unfold calcEnPassantTarget
  split_ifs with h1 h2 h3
  · exact ⟨none, rfl⟩
  · exact ⟨none, rfl⟩
  · have hst := F.pawn_double (by simpa using h1) (by simpa using h2)
    rw [h3] at hst
    have hfl := m.from_square.file.isLt
    have hst1 : m.from_square.rank.val = 1 := hst
    cases hm : mkSquareI (m.from_square.file.val : Int) ((m.from_square.rank.val : Int) + 1) with
    | some t => exact ⟨some t, rfl⟩
    | none =>
      exfalso
      unfold mkSquareI at hm
      rw [dif_pos ⟨by omega, by omega, by omega, by omega⟩] at hm
      exact absurd hm (by simp)
  · have hst := F.pawn_double (by simpa using h1) (by simpa using h2)
    have hcol : m.piece.color = .black := by
      cases hv : m.piece.color
      · exact absurd hv h3
      · rfl
    rw [hcol] at hst
    have hfl := m.from_square.file.isLt
    have hst6 : m.from_square.rank.val = 6 := hst
    cases hm : mkSquareI (m.from_square.file.val : Int) ((m.from_square.rank.val : Int) - 1) with
    | some t => exact ⟨some t, rfl⟩
    | none =>
      exfalso
      unfold mkSquareI at hm
      rw [dif_pos ⟨by omega, by omega, by omega, by omega⟩] at hm
      exact absurd hm (by simp)

/-- C1: every move returned by `get_legal_moves(p, c)` executes successfully
and leaves `c`'s king out of check in the resulting position. -/
theorem legal_moves_never_self_check (s : GameState) (c : Color) (m : Move)
    (h : m ∈ getLegalMoves s c) :
    ∃ s', executeMove s m = some s' ∧ isCheck s' c = false := by
  obtain ⟨hmem, hleg⟩ := List.mem_filter.mp h
  have F := genFacts_of_mem hmem
  obtain ⟨ep, hcalc⟩ := calcEP_some_of_genFacts F
  have hw : wouldLeaveInCheck s m = false := wlc_false_of_legal hleg
  have hboards : tempBoard s.board m = execBoard s.board m :=
    tempBoard_eq_execBoard
      (fun hc => ⟨F.castle_noep hc, F.castle_nopromo hc, F.castle_file hc⟩)
      (fun he => ⟨F.ep_nopromo he, F.ep_rank he⟩)
  cases hex : executeMove s m with
  | none =>
    exfalso
    unfold executeMove at hex
    rw [hcalc] at hex
    exact absurd hex (by simp)
  | some s' =>
    refine ⟨s', rfl, ?_⟩
    obtain ⟨ep2, -, hbrd, -⟩ := executeMove_eq_some hex
    show isCheckB s'.board c = false
    rw [hbrd, ← hboards]
    calc isCheckB (tempBoard s.board m) c
        = isCheckB (tempBoard s.board m) m.piece.color := by rw [F.color_eq]
      _ = wouldLeaveInCheck s m := rfl
      _ = false := hw

/-- The small three-piece state (white king e1, white pawn a2, black king e8),
no castling rights. -/
def smallState : GameState :=
  { board := smallBoard, current_player := .white,
    castling_rights := ⟨false, false, false, false⟩ }

/-- The pawn push a2-a3 on `smallState`. -/
def moveA2A3 : Move :=
  { from_square := ⟨0, 1⟩, to_square := ⟨0, 2⟩, piece := ⟨.pawn, .white⟩ }

/-- Witness for `legal_moves_never_self_check` at a concrete legal move. -/
theorem legal_moves_never_self_check_witness :
    ∃ s', executeMove smallState moveA2A3 = some s' ∧ isCheck s' .white = false :=
  legal_moves_never_self_check smallState .white moveA2A3 (by decide)

/-! ## C4: missing-king behavior -/

theorem findKingB_eq_none_iff {b : Board} {c : Color} :
    findKingB b c = none ↔ ∀ sq, b sq ≠ some (⟨.king, c⟩ : Piece) := by
  unfold findKingB
  rw [List.find?_eq_none]
  constructor
  · intro h sq heq
    have hx := h sq (mem_squaresRF sq)
    rw [heq] at hx
    simp at hx
  · intro h sq hmem
    cases hb : b sq with
    | none => simp
    | some p =>
      dsimp only
      intro habs
      obtain ⟨hk, hc⟩ := by simpa using habs
      rcases hp : p with ⟨pt2, c2⟩
      rw [hp] at hk hc
      have hk2 : pt2 = .king := hk
      have hc2 : c2 = c := hc
      exact h sq (by rw [hb, hp, hk2, hc2])

theorem tempBoard_no_king {s : GameState} {c : Color} {m : Move}
    (hnk : ∀ sq, s.board sq ≠ some (⟨.king, c⟩ : Piece))
    (hpiece : m.piece ≠ (⟨.king, c⟩ : Piece))
    (hpromo : m.promotion_piece ≠ some .king)
    (hcastle : m.is_castling = false) :
    ∀ sq, tempBoard s.board m sq ≠ some (⟨.king, c⟩ : Piece) := by
  intro sq
  unfold tempBoard
  rw [hcastle]
  simp only [Bool.false_eq_true, if_false]
  have hb2 : ∀ x, (if m.is_en_passant then
      (s.board.removePiece m.from_square).removePiece ⟨m.to_square.file, m.from_square.rank⟩
    else s.board.removePiece m.from_square) x ≠ some (⟨.king, c⟩ : Piece) := by
    intro x
    split_ifs <;> simp only [removePiece_apply] <;> split_ifs
    · simp
    · simp
    · exact hnk x
    · simp
    · exact hnk x
  cases hpr : m.promotion_piece with
  | some pt =>
    simp only [setPiece_apply]
    by_cases hsq : sq = m.to_square
    · rw [if_pos hsq]
      intro heq
      have hpk : pt = .king := congrArg Piece.pieceType (Option.some.inj heq)
      exact hpromo (by rw [hpr, hpk])
    · rw [if_neg hsq]
      exact hb2 sq
  | none =>
    simp only [setPiece_apply]
    by_cases hsq : sq = m.to_square
    · rw [if_pos hsq]
      intro heq
      exact hpiece (Option.some.inj heq)
    · rw [if_neg hsq]
      exact hb2 sq

/-- C4 (amended): for a state in which `c` has no king, `is_check` is false
and `get_legal_moves` is total and returns exactly the pseudo-legal moves
(with no king, no move can leave the king in check), which need not be empty. -/
theorem missing_king_total (s : GameState) (c : Color)
    (h : findKingB s.board c = none) :
    isCheck s c = false ∧ getLegalMoves s c = generatePseudoLegalMoves s c := by
  have hnk := findKingB_eq_none_iff.mp h
  constructor
  · unfold isCheck isCheckB
    rw [h]
  · unfold getLegalMoves
    rw [List.filter_eq_self]
    intro m hmem
    have F := genFacts_of_mem hmem
    have hpiece : m.piece ≠ (⟨.king, c⟩ : Piece) := by
      intro heq
      exact hnk m.from_square (by rw [F.piece_at, heq])
    have hcastle : m.is_castling = false := by
      cases hcb : m.is_castling
      · rfl
      · exfalso
        apply hpiece
        have ht := F.castle_type hcb
        have hcol := F.color_eq
        rcases hp : m.piece with ⟨pt2, c2⟩
        rw [hp] at ht hcol
        have ht2 : pt2 = .king := ht
        have hcol2 : c2 = c := hcol
        rw [ht2, hcol2]
    have hwlc : wouldLeaveInCheck s m = false := by
      have hnone : findKingB (tempBoard s.board m) c = none :=
        findKingB_eq_none_iff.mpr (tempBoard_no_king hnk hpiece F.promo_not_king hcastle)
      show isCheckB (tempBoard s.board m) m.piece.color = false
      rw [F.color_eq]
      unfold isCheckB
      rw [hnone]
    unfold isLegalMove
    rw [if_neg (by simp [hcastle])]
    by_cases hep : m.is_en_passant = true
    · rw [if_pos hep]
      unfold validateEnPassant
      rw [if_pos (F.ep_target hep)]
      simp [hwlc]
    · rw [if_neg hep]
      simp [hwlc]

/-- A structurally valid state in which White has no king: a lone white pawn
on a2 and the black king on e8. -/
def stateC4 : GameState :=
  { board := fun sq =>
      if sq = ⟨0, 1⟩ then some ⟨.pawn, .white⟩
      else if sq = ⟨4, 7⟩ then some ⟨.king, .black⟩
      else none,
    current_player := .white,
    castling_rights := ⟨false, false, false, false⟩ }

/-- C4 counterexample: with no white king on the board, `is_check` is false
as claimed, but `get_legal_moves` is NOT empty — the white pawn's moves are
all reported legal. -/
theorem missing_king_counterexample :
    findKingB stateC4.board .white = none ∧
    isCheck stateC4 .white = false ∧
    getLegalMoves stateC4 .white ≠ [] := by
  decide

/-- Witness for `missing_king_total` at the concrete kingless state. -/
theorem missing_king_total_witness :
    isCheck stateC4 .white = false ∧
    getLegalMoves stateC4 .white = generatePseudoLegalMoves stateC4 .white :=
  missing_king_total stateC4 .white (by decide)

/-! ## C3: castling gating -/

/-- Home rank of a color's back pieces. -/
def homeRank (c : Color) : Fin 8 := if c = .white then 0 else 7

/-- C3's position hypothesis: king and both rooks of `c` on their home
squares, all squares strictly between them empty, both castling rights held. -/
def castleReady (s : GameState) (c : Color) : Prop :=
  s.board ⟨4, homeRank c⟩ = some ⟨.king, c⟩ ∧
  s.board ⟨0, homeRank c⟩ = some ⟨.rook, c⟩ ∧
  s.board ⟨7, homeRank c⟩ = some ⟨.rook, c⟩ ∧
  s.board ⟨1, homeRank c⟩ = none ∧
  s.board ⟨2, homeRank c⟩ = none ∧
  s.board ⟨3, homeRank c⟩ = none ∧
  s.board ⟨5, homeRank c⟩ = none ∧
  s.board ⟨6, homeRank c⟩ = none ∧
  (c = .white → s.castling_rights.white_kingside = true ∧
    s.castling_rights.white_queenside = true) ∧
  (c = .black → s.castling_rights.black_kingside = true ∧
    s.castling_rights.black_queenside = true)

instance (s : GameState) (c : Color) : Decidable (castleReady s c) := by
  unfold castleReady
  infer_instance

/-- The single square the king passes through in a castling move (f-file for
kingside, d-file for queenside, on the king's origin rank). -/
def passSquare (m : Move) : Square :=
  ⟨if m.to_square.file.val = 6 then 5 else 3, m.from_square.rank⟩

theorem mkSquareI_nat_fin (n : Nat) (hn : n < 8) (r : Fin 8) :
    mkSquareI (n : Int) (r.val : Int) = some ⟨⟨n, hn⟩, r⟩ := by
  unfold mkSquareI
  rw [dif_pos ⟨by omega, by exact_mod_cast hn, by omega, by exact_mod_cast r.isLt⟩]
  simp [Square.mk.injEq, Fin.ext_iff]

theorem validateCastling_iff {s : GameState} {c : Color} {m : Move}
    (hfrom : m.from_square = ⟨4, homeRank c⟩)
    (hfile : m.to_square.file.val = 6 ∨ m.to_square.file.val = 2)
    (hcol : m.piece.color = c) :
    (validateCastling s m = true ↔
      (isCheck s c = false ∧
       isSquareAttackedB s.board (passSquare m) c.opposite = false ∧
       isCheckB (tempBoard s.board m) c = false)) := by
  have hf4 : m.from_square.file.val = 4 := by rw [hfrom]; rfl
  have hwlc_eq : wouldLeaveInCheck s m = isCheckB (tempBoard s.board m) c := by
    show isCheckB (tempBoard s.board m) m.piece.color = _
    rw [hcol]
  unfold validateCastling
  rw [hcol]
  have hmatch : (match (if m.from_square.file.val < m.to_square.file.val then
        mkSquareI ((m.from_square.file.val : Int) + 1) m.from_square.rank.val
      else mkSquareI ((m.from_square.file.val : Int) - 1) m.from_square.rank.val) with
      | none => false
      | some isq =>
        if isSquareAttacked s isq c.opposite then false
        else !wouldLeaveInCheck s m) =
      (if isSquareAttackedB s.board (passSquare m) c.opposite then false
       else !wouldLeaveInCheck s m) := by
    rcases hfile with h6 | h6
    · have hlt : m.from_square.file.val < m.to_square.file.val := by omega
      rw [if_pos hlt, hf4]
      have h45 : ((4 : Nat) : Int) + 1 = ((5 : Nat) : Int) := by norm_num
      rw [h45, mkSquareI_nat_fin 5 (by norm_num) m.from_square.rank]
      have hps : (⟨⟨5, by norm_num⟩, m.from_square.rank⟩ : Square) = passSquare m := by
        unfold passSquare
        rw [if_pos h6]
        simp only [Square.mk.injEq]
        exact ⟨by decide, trivial⟩
      rw [hps]
      rfl
    · have hlt : ¬(m.from_square.file.val < m.to_square.file.val) := by omega
      rw [if_neg hlt, hf4]
      have h43 : ((4 : Nat) : Int) - 1 = ((3 : Nat) : Int) := by norm_num
      rw [h43, mkSquareI_nat_fin 3 (by norm_num) m.from_square.rank]
      have hps : (⟨⟨3, by norm_num⟩, m.from_square.rank⟩ : Square) = passSquare m := by
        unfold passSquare
        rw [if_neg (by omega)]
        simp only [Square.mk.injEq]
        exact ⟨by decide, trivial⟩
      rw [hps]
      rfl
  rw [hmatch]
  by_cases hchk : isCheck s c = true
  · rw [if_pos hchk]
    simp [hchk]
  · have hchk2 : isCheck s c = false := by simpa using hchk
    rw [if_neg hchk]
    by_cases hatt : isSquareAttackedB s.board (passSquare m) c.opposite = true
    · rw [if_pos hatt]
      simp [hatt]
    · have hatt2 : isSquareAttackedB s.board (passSquare m) c.opposite = false := by
        simpa using hatt
      rw [if_neg hatt, hwlc_eq]
      simp [hchk2, hatt2]

theorem countP_flatMap_eq {α β : Type} (l : List α) (f : α → List β) (p : β → Bool) :
    (l.flatMap f).countP p = (l.map fun a => (f a).countP p).sum := by
  induction l with
  | nil => rfl
  | cons a t ih => simp [List.flatMap_cons, List.countP_append, ih]

theorem sum_map_indicator {α : Type} [DecidableEq α] {l : List α} {g : α → Nat} {k : α}
    {n : Nat} (h : ∀ a ∈ l, g a = if a = k then n else 0) (hcount : l.count k = 1) :
    (l.map g).sum = n := by
  induction l with
  | nil => simp at hcount
  | cons a t ih =>
    simp only [List.map_cons, List.sum_cons]
    by_cases hak : a = k
    · subst hak
      rw [h a (by simp), if_pos rfl]
      have ht : t.count a = 0 := by
        have hcc := List.count_cons_self a t
        omega
      have hnot : a ∉ t := List.count_eq_zero.mp ht
      have hzero : (t.map g).sum = 0 := by
        apply List.sum_eq_zero
        intro x hx
        obtain ⟨b, hb, rfl⟩ := List.mem_map.mp hx
        rw [h b (by simp [hb])]
        have hbne : ¬(b = a) := fun hbk => hnot (by rw [← hbk]; exact hb)
        rw [if_neg hbne]
      omega
    · rw [h a (by simp), if_neg hak]
      have hc : t.count k = 1 := by
        rw [List.count_cons] at hcount
        simp [hak] at hcount
        exact hcount
      have := ih (fun b hb => h b (by simp [hb])) hc
      omega

theorem countP_castling_not_kingStart {s : GameState} {sq : Square} {p : Piece}
    (hb : s.board sq = some p) (hsq : sq ≠ ⟨4, homeRank p.color⟩) :
    (generatePieceMoves s sq).countP (·.is_castling) = 0 := by
  unfold generatePieceMoves
  rw [hb]
  dsimp only
  rw [List.countP_eq_zero]
  intro m hm
  cases hpt : p.pieceType with
  | pawn =>
    rw [hpt] at hm
    obtain ⟨-, -, hc, -⟩ := mem_generatePawnMoves hm
    simp [hc]
  | knight =>
    rw [hpt] at hm
    obtain ⟨-, -, hc, -⟩ := mem_generateKnightMoves hm
    simp [hc]
  | bishop =>
    rw [hpt] at hm
    obtain ⟨-, -, hc, -⟩ := mem_generateBishopMoves hm
    simp [hc]
  | rook =>
    rw [hpt] at hm
    obtain ⟨-, -, hc, -⟩ := mem_generateRookMoves hm
    simp [hc]
  | queen =>
    rw [hpt] at hm
    obtain ⟨-, -, hc, -⟩ := mem_generateQueenMoves hm
    simp [hc]
  | king =>
    rw [hpt] at hm
    unfold generateKingMoves at hm
    rcases List.mem_append.mp hm with hm | hm
    · obtain ⟨d, -, hd⟩ := List.mem_flatMap.mp hm
      obtain ⟨-, -, hc, -⟩ := mem_offsetMove hd
      simp [hc]
    · exfalso
      obtain ⟨-, -, -, -, -, -, -, hfrom, -⟩ := mem_generateCastlingMoves hm
      apply hsq
      rw [hfrom]
      unfold homeRank
      rfl

theorem countP_castling_king_home {s : GameState} {c : Color} (h : castleReady s c) :
    (generatePieceMoves s ⟨4, homeRank c⟩).countP (·.is_castling) = 2 := by
  obtain ⟨hk, hr0, hr7, hb1, hb2, hb3, hb5, hb6, hwr, hbr⟩ := h
  unfold generatePieceMoves
  rw [hk]
  dsimp only
  unfold generateKingMoves
  rw [List.countP_append]
  have hoff : ((kingOffsets.flatMap
      fun d => offsetMove s ⟨4, homeRank c⟩ ⟨.king, c⟩ d.1 d.2).countP (·.is_castling)) = 0 := by
    rw [List.countP_eq_zero]
    intro m hm
    obtain ⟨d, -, hd⟩ := List.mem_flatMap.mp hm
    obtain ⟨-, -, hc0, -⟩ := mem_offsetMove hd
    simp [hc0]
  rw [hoff]
  cases c with
  | white =>
    rw [show homeRank Color.white = (0 : Fin 8) from rfl] at hr0 hr7 hb1 hb2 hb3 hb5 hb6 ⊢
    obtain ⟨hwk, hwq⟩ := hwr rfl
    unfold generateCastlingMoves
    rw [if_pos rfl, if_pos ⟨hwk, rfl⟩, if_pos ⟨hb5, hb6⟩, hr7]
    dsimp only
    rw [if_pos ⟨rfl, rfl⟩, if_pos ⟨hwq, rfl⟩, if_pos ⟨hb1, hb2, hb3⟩, hr0]
    dsimp only
    rw [if_pos ⟨rfl, rfl⟩]
    rfl
  | black =>
    rw [show homeRank Color.black = (7 : Fin 8) from rfl] at hr0 hr7 hb1 hb2 hb3 hb5 hb6 ⊢
    obtain ⟨hbk, hbq⟩ := hbr rfl
    unfold generateCastlingMoves
    rw [if_neg (by simp), if_pos ⟨hbk, rfl⟩, if_pos ⟨hb5, hb6⟩, hr7]
    dsimp only
    rw [if_pos ⟨rfl, rfl⟩, if_pos ⟨hbq, rfl⟩, if_pos ⟨hb1, hb2, hb3⟩, hr0]
    dsimp only
    rw [if_pos ⟨rfl, rfl⟩]
    rfl

/-- C3: in a castle-ready position (king and both rooks home, between-squares
empty, both rights held) the generator emits exactly 2 castling moves for that
side, and a generated castling move is legal exactly when the king is not in
check, the square it passes through is not attacked, and the simulated full
move (king and rook relocated) leaves the king out of check. -/
theorem castling_gating (s : GameState) (c : Color) (h : castleReady s c) :
    (generatePseudoLegalMoves s c).countP (·.is_castling) = 2 ∧
    (∀ m ∈ generatePseudoLegalMoves s c, m.is_castling = true →
      (m ∈ getLegalMoves s c ↔
        (isCheck s c = false ∧
         isSquareAttackedB s.board (passSquare m) c.opposite = false ∧
         isCheckB (tempBoard s.board m) c = false))) := by
  constructor
  · unfold generatePseudoLegalMoves
    rw [countP_flatMap_eq]
    have hfun : ∀ sq ∈ squaresRF,
        (List.countP (fun mv => mv.is_castling)
          (match s.board sq with
           | some p => if p.color = c then generatePieceMoves s sq else []
           | none => ([] : List Move))) =
        if sq = (⟨4, homeRank c⟩ : Square) then 2 else 0 := by
      intro sq _
      by_cases hk : sq = (⟨4, homeRank c⟩ : Square)
      · subst hk
        rw [if_pos rfl, h.1]
        dsimp only
        rw [if_pos rfl]
        exact countP_castling_king_home h
      · rw [if_neg hk]
        cases hbv : s.board sq with
        | none => rfl
        | some p =>
          dsimp only
          by_cases hpc : p.color = c
          · rw [if_pos hpc]
            exact countP_castling_not_kingStart hbv (by rw [hpc]; exact hk)
          · rw [if_neg hpc]
            rfl
    have hcount : squaresRF.count (⟨4, homeRank c⟩ : Square) = 1 := by
      cases c <;> decide
    exact sum_map_indicator hfun hcount
  · intro m hmem hcast
    have F := genFacts_of_mem hmem
    have hfrom : m.from_square = ⟨4, homeRank c⟩ := F.castle_from hcast
    constructor
    · intro hlegal
      obtain ⟨-, hleg⟩ := List.mem_filter.mp hlegal
      unfold isLegalMove at hleg
      rw [if_pos hcast] at hleg
      exact (validateCastling_iff hfrom (F.castle_file hcast) F.color_eq).mp hleg
    · intro hconds
      refine List.mem_filter.mpr ⟨hmem, ?_⟩
      unfold isLegalMove
      rw [if_pos hcast]
      exact (validateCastling_iff hfrom (F.castle_file hcast) F.color_eq).mpr hconds

/-- Castle-ready board: white king e1, white rooks a1 and h1, black king e8. -/
def castleBoard : Board := fun sq =>
  if sq = ⟨4, 0⟩ then some ⟨.king, .white⟩
  else if sq = ⟨0, 0⟩ then some ⟨.rook, .white⟩
  else if sq = ⟨7, 0⟩ then some ⟨.rook, .white⟩
  else if sq = ⟨4, 7⟩ then some ⟨.king, .black⟩
  else none

/-- Castle-ready state for White. -/
def castleState : GameState :=
  { board := castleBoard, current_player := .white,
    castling_rights := ⟨true, true, false, false⟩ }

/-- Witness for `castling_gating` at the concrete castle-ready white position. -/
theorem castling_gating_witness :
    (generatePseudoLegalMoves castleState .white).countP (·.is_castling) = 2 ∧
    (∀ m ∈ generatePseudoLegalMoves castleState .white, m.is_castling = true →
      (m ∈ getLegalMoves castleState .white ↔
        (isCheck castleState .white = false ∧
         isSquareAttackedB castleState.board (passSquare m) Color.white.opposite = false ∧
         isCheckB (tempBoard castleState.board m) .white = false))) :=
  castling_gating castleState .white (by decide)
